import Mathlib

/-!
# Verification of the AWSImageService specification against its source

This development gives a shallow embedding, in Lean 4, of the algorithmic
parts of the AWSImageService repository:

* the model-response text extractor `parseBedrockResponse`
  (src/src/handlers/analyze.ts, lines 306-374);
* the hand-rolled multipart/form-data extractor `parseMultipartFormData`
  and `splitByBoundary` together with the upload handler's validation
  pipeline (the upload Lambda, src/unnamed/part_002);
* the shared type-level constants `ALLOWED_MIME_TYPES`, `MAX_FILE_SIZE`,
  `MIME_TO_EXTENSION` and the field lists of `UploadResponseData`
  (src/src/types/index.ts);
* the ownership-filtered list endpoints and the cascading delete of the
  query handler, which are modelled from the specification because the
  revision of `query.ts` included under src/ predates them.

JavaScript strings and Node `Buffer`s are both modelled as `List Char`
(each element standing for one UTF-16 unit / one byte; all data relevant
to the claims is in the ASCII range).  JavaScript regular expressions are
translated into explicit scanning functions that implement the exact
backtracking semantics of the concrete patterns appearing in the source;
each such function is documented with the pattern it implements.
-/

namespace AWSImageService

/-! ## Characters and case-insensitive comparison

JavaScript's `/i` regex flag folds case.  All patterns in the source are
ASCII, and Lean core's `Char.toLower` is exactly ASCII lower-casing, so we
use it as the folding function. -/

/-- `(Char.ofNat n).toNat = n` for valid code points. -/
theorem toNat_ofNat_valid (n : Nat) (h : n.isValidChar) : (Char.ofNat n).toNat = n := by
  rw [Char.ofNat, dif_pos h]
  rfl

/-- If `t` is not a lowercase ASCII letter, the only character whose
ASCII lower-casing is `t` is `t` itself. -/
theorem eq_of_toLower_eq_nonletter {c t : Char}
    (ht : ¬(97 ≤ t.toNat ∧ t.toNat ≤ 122)) (h : c.toLower = t) : c = t := by
  unfold Char.toLower at h
  simp only at h
  by_cases hr : c.toNat ≥ 65 ∧ c.toNat ≤ 90
  · rw [if_pos hr] at h
    exfalso
    apply ht
    have hv : (Char.ofNat (c.toNat + 32)).toNat = c.toNat + 32 :=
      toNat_ofNat_valid _ (Or.inl (by omega))
    rw [h] at hv
    omega
  · rwa [if_neg hr] at h

/-- Whitespace class of JavaScript regexes (`\s`) and `String.prototype.trim`,
restricted to its ASCII part (the source data is ASCII). -/
def jsWs (c : Char) : Bool :=
  c = ' ' || c = '\t' || c = '\n' || c = '\r' || c = '\x0b' || c = '\x0c'

/-- JS `String.prototype.trim` (ASCII part). -/
def jsTrim (l : List Char) : List Char :=
  ((l.dropWhile jsWs).reverse.dropWhile jsWs).reverse

/-- Case-insensitive "the pattern `pat` matches at the start of `l`"
(the way a JS `/i` regex matches a literal). -/
def ciStarts (pat l : List Char) : Prop :=
  (l.take pat.length).map Char.toLower = pat.map Char.toLower

instance (pat l : List Char) : Decidable (ciStarts pat l) := by
  unfold ciStarts; infer_instance

/-- Exact occurrence of `pat` in `l` at index `i` (Node `Buffer.indexOf`
matches bytes exactly). -/
def occursAt (pat l : List Char) (i : Nat) : Prop :=
  (l.drop i).take pat.length = pat

instance (pat l : List Char) (i : Nat) : Decidable (occursAt pat l i) := by
  unfold occursAt; infer_instance

/-! ### Scanning primitives

All left-to-right scans are written with an explicit fuel argument that is
initialised to a value large enough that it can never run out (each step
either stops or advances the position by at least one inside a list of
fixed length); this makes the definitions structurally recursive. -/

/-- Fuelled kernel of `Buffer.indexOf(pat, from)`: the least `i ≥ start`
with an exact occurrence of `pat`, scanning left to right. -/
def idxAux (l pat : List Char) : Nat → Nat → Option Nat
  | 0, _ => none
  | fuel + 1, i =>
    if l.length < i + pat.length then none
    else if occursAt pat l i then some i
    else idxAux l pat fuel (i + 1)

/-- `Buffer.indexOf(pat, start)` (`none` for `-1`). -/
def indexOfFrom (l pat : List Char) (start : Nat) : Option Nat :=
  idxAux l pat (l.length + 1 - start) start

/-- Kernel of `Buffer.lastIndexOf(pat)`: scan right to left. -/
def lastIdxAux (l pat : List Char) : Nat → Option Nat
  | 0 => if occursAt pat l 0 then some 0 else none
  | i + 1 => if occursAt pat l (i + 1) then some (i + 1) else lastIdxAux l pat i

/-- `Buffer.lastIndexOf(pat)` (`none` for `-1`). -/
def lastIndexOfList (l pat : List Char) : Option Nat :=
  if pat.length ≤ l.length then lastIdxAux l pat (l.length - pat.length) else none

/-- Fuelled kernel of a case-insensitive regex scan for a literal pattern:
the least `i ≥ start` where `pat` matches case-insensitively. -/
def ciFindAux (l pat : List Char) : Nat → Nat → Option Nat
  | 0, _ => none
  | fuel + 1, i =>
    if l.length < i then none
    else if ciStarts pat (l.drop i) then some i
    else ciFindAux l pat fuel (i + 1)

/-- First case-insensitive occurrence of the literal `pat` in `l` at or
after `start` (regex-engine scanning order). -/
def ciFind (l pat : List Char) (start : Nat) : Option Nat :=
  ciFindAux l pat (l.length + 1 - start) start

/-- `l.slice(a, b)` for `0 ≤ a ≤ b`. -/
def seg (l : List Char) (a b : Nat) : List Char :=
  (l.drop a).take (b - a)

/-- Does `l` contain `pat` case-insensitively? (JS
`str.toLowerCase().includes(pat)` for an ASCII, lowercase `pat`.) -/
def containsCI (l pat : List Char) : Bool :=
  (ciFind l pat 0).isSome

/-- JS `"…".split(',')` on a character list: splits at every `','`,
yielding `[[]]` on the empty string. -/
def splitComma : List Char → List (List Char)
  | [] => [[]]
  | c :: cs =>
    if c = ',' then [] :: splitComma cs
    else
      match splitComma cs with
      | g :: gs => (c :: g) :: gs
      | [] => [[c]]

/-! ## The model-response text extractor
(`parseBedrockResponse`, src/src/handlers/analyze.ts lines 306-374)

The source extracts three fields with the three regexes

* `/DESCRIPTION:\s*(.+?)(?=\nKEYWORDS:|$)/is`
* `/KEYWORDS:\s*(.+?)(?=\nDETECTED_TEXT:|$)/is`
* `/DETECTED_TEXT:\s*(.+?)$/is`

Each is: a case-insensitive literal label, greedy `\s*`, a lazy
non-empty capture (dot matches newline because of `/s`), stopped by a
lookahead (a case-insensitive literal preceded by `\n`, or end of input;
`$` with `/s` and without `/m` is end of input).  The functions below
implement exactly that backtracking order: the engine finds the leftmost
position where the whole pattern matches; `\s*` takes its maximal run
first and gives characters back one by one; the lazy capture grows from
one character until the lookahead holds. -/

/-- First position `p ≥ q` at which the lookahead holds: end of input, or
(when `look = some pat`) a case-insensitive match of `pat`. -/
def lookFromAux (s : List Char) (look : Option (List Char)) : Nat → Nat → Option Nat
  | 0, _ => none
  | fuel + 1, p =>
    if s.length < p then none
    else if p = s.length then some p
    else
      match look with
      | some pat => if ciStarts pat (s.drop p) then some p else lookFromAux s look fuel (p + 1)
      | none => lookFromAux s look fuel (p + 1)

def lookFrom (s : List Char) (look : Option (List Char)) (q : Nat) : Option Nat :=
  lookFromAux s look (s.length + 1 - q) q

/-- Backtracking over the greedy `\s*`: try `k` whitespace characters,
from `kmax` down to `0`; for each `k` the lazy capture ends at the first
lookahead position `p ≥ j + k + 1`. -/
def tryKs (s : List Char) (look : Option (List Char)) (j : Nat) : Nat → Option (List Char)
  | 0 =>
    match lookFrom s look (j + 1) with
    | some p => some (seg s j p)
    | none => none
  | k + 1 =>
    match lookFrom s look (j + k + 2) with
    | some p => some (seg s (j + k + 1) p)
    | none => tryKs s look j k

/-- Scan for the label; on a failed attempt the regex engine retries from
the next position after the failed occurrence. -/
def labelCapAux (s label : List Char) (look : Option (List Char)) : Nat → Nat → Option (List Char)
  | 0, _ => none
  | fuel + 1, i =>
    match ciFind s label i with
    | none => none
    | some i0 =>
      let j := i0 + label.length
      match tryKs s look j ((s.drop j).takeWhile jsWs).length with
      | some cap => some cap
      | none => labelCapAux s label look fuel (i0 + 1)

/-- `s.match(/LABEL:\s*(.+?)(?=LOOK|$)/is)?.[1]` for a literal label. -/
def labelCap (s label : List Char) (look : Option (List Char)) : Option (List Char) :=
  labelCapAux s label look (s.length + 1) 0

/-- `.replace(/[\[\]]/g, '')`. -/
def stripBrackets (l : List Char) : List Char :=
  l.filter (fun c => !(c = '[' || c = ']'))

/-- Result triple of the extractor. -/
structure BedrockResult where
  description : List Char
  keywords : List (List Char)
  detectedText : List (List Char)
  deriving Repr, DecidableEq

/-- The fixed 5-entry placeholder keyword list of the source
(line 356 of analyze.ts). -/
def placeholderKeywords : List (List Char) :=
  ["image".data, "analysis".data, "content".data, "visual".data, "photo".data]

/-- `parseBedrockResponse` (src/src/handlers/analyze.ts lines 306-374).
The `try` body consists solely of string operations that cannot throw on a
string input, so the `catch` branch (lines 366-371) is unreachable and the
translation is the `try` body. -/
def parseBedrockResponse (s : List Char) : BedrockResult :=
  -- DESCRIPTION
  let desc0 : List Char :=
    match labelCap s "DESCRIPTION:".data (some "\nKEYWORDS:".data) with
    | some c => jsTrim c
    | none => []
  -- KEYWORDS
  let kws : List (List Char) :=
    match labelCap s "KEYWORDS:".data (some "\nDETECTED_TEXT:".data) with
    | some c =>
      ((((splitComma (stripBrackets (jsTrim c))).map jsTrim).filter
        (fun k => k.length > 0)).take 5)
    | none => []
  -- DETECTED_TEXT
  let dt : List (List Char) :=
    match labelCap s "DETECTED_TEXT:".data none with
    | some c =>
      let t := jsTrim c
      if containsCI t "no text detected".data then []
      else
        ((splitComma (stripBrackets t)).map jsTrim).filter
          (fun x => x.length > 0 && !containsCI x "no text".data)
    | none => []
  -- fallbacks (lines 352-357)
  { description := if desc0 = [] then s.take 300 else desc0
    keywords := if kws = [] then placeholderKeywords else kws
    detectedText := dt }

/-! ## The multipart/form-data extractor
(upload Lambda, src/unnamed/part_002: `parseMultipartFormData` lines
289-401 and `splitByBoundary` lines 406-442)

Node `Buffer`s are modelled as `List Char`, one element per byte; all the
parser's own byte comparisons are against ASCII constants. -/

/-- Length of the maximal run of characters different from `t` starting
at index `i` (the text consumed by a greedy `[^t]*`). -/
def runNot (t : Char) (l : List Char) (i : Nat) : Nat :=
  ((l.drop i).takeWhile (fun c => c ≠ t)).length

/-- Boundary extraction, `/boundary=(?:"([^"]+)"|([^;]+))/i` followed by
`boundaryMatch[1] || boundaryMatch[2]` (lines 305-312).  The engine finds
the literal `boundary=`, then tries the quoted alternative first and the
`[^;]+` alternative second; if both fail it rescans from the next
position. -/
def getBoundaryAux (ct : List Char) : Nat → Nat → Option (List Char)
  | 0, _ => none
  | fuel + 1, i =>
    match ciFind ct "boundary=".data i with
    | none => none
    | some j =>
      let j9 := j + 9
      let alt1 : Option (List Char) :=
        if ct[j9]? = some '"' then
          let r := runNot '"' ct (j9 + 1)
          if 1 ≤ r ∧ ct[j9 + 1 + r]? = some '"' then some (seg ct (j9 + 1) (j9 + 1 + r))
          else none
        else none
      match alt1 with
      | some b => some b
      | none =>
        let r2 := runNot ';' ct j9
        if 1 ≤ r2 then some (seg ct j9 (j9 + r2)) else getBoundaryAux ct fuel (j + 1)

def getBoundary (ct : List Char) : Option (List Char) :=
  getBoundaryAux ct (ct.length + 1) 0

/-- The loop body of `splitByBoundary` (lines 406-442).  `start` always
points just past the previous boundary occurrence; each iteration finds
the next occurrence, pushes the bytes strictly between them with the
`\r\n` after the previous boundary and the `\r\n` before the next one
stripped, and stops when the next boundary is followed by `--`. -/
def sbGo (buf : List Char) (p0 : Char) (prest : List Char) : Nat → Nat → List (List Char)
  | 0, _ => []
  | fuel + 1, start =>
    match indexOfFrom buf (p0 :: prest) start with
    | none => []
    | some idx =>
      let piece : List (List Char) :=
        if 0 < start then
          let ps := if buf[start]? = some '\r' ∧ buf[start + 1]? = some '\n' then start + 2 else start
          let pe := if 2 ≤ idx ∧ buf[idx - 2]? = some '\r' ∧ buf[idx - 1]? = some '\n' then idx - 2 else idx
          if ps < pe then [seg buf ps pe] else []
        else []
      let start' := idx + prest.length + 1
      if buf[start']? = some '-' ∧ buf[start' + 1]? = some '-' then piece
      else piece ++ sbGo buf p0 prest fuel start'

/-- `splitByBoundary(buffer, boundaryBuffer)`.  The boundary buffer passed
by the caller is always `--` ++ boundary, hence nonempty; the `[]` case is
unreachable. -/
def splitByBoundary (buf pat : List Char) : List (List Char) :=
  match pat with
  | [] => []
  | p0 :: prest => sbGo buf p0 prest (buf.length + 1) 0

/-- One backtracking attempt of the tail `name="([^"]+)"` of the
`Content-Disposition` regex at position `k`. -/
def nameTry (h : List Char) (k : Nat) : Option (List Char) :=
  if ciStarts "name=\"".data (h.drop k) then
    let r := runNot '"' h (k + 6)
    if 1 ≤ r ∧ h[k + 6 + r]? = some '"' then some (seg h (k + 6) (k + 6 + r)) else none
  else none

/-- Backtracking of the second greedy `[^;]*`: the literal `name="` is
tried at `lo + d, lo + d - 1, …, lo` (rightmost first). -/
def nameBack (h : List Char) (lo : Nat) : Nat → Option (List Char)
  | 0 => nameTry h lo
  | d + 1 =>
    match nameTry h (lo + d + 1) with
    | some cap => some cap
    | none => nameBack h lo d

/-- One attempt of `/Content-Disposition:[^;]*;[^;]*name="([^"]+)"/i`
after the literal label, at position `j`: the first `[^;]*` can only end
at the first `;` (its characters cannot cross one), then the second
`[^;]*` backtracks greedily before the literal `name="`. -/
def cdAttempt (h : List Char) (j : Nat) : Option (List Char) :=
  let r1 := runNot ';' h j
  if h[j + r1]? = some ';' then
    let j2 := j + r1 + 1
    nameBack h j2 (runNot ';' h j2)
  else none

/-- `headerSection.match(/Content-Disposition:[^;]*;[^;]*name="([^"]+)"/i)`
(line 354): scan for the label, attempt, rescan on failure. -/
def cdScanAux (h : List Char) : Nat → Nat → Option (List Char)
  | 0, _ => none
  | fuel + 1, i =>
    match ciFind h "Content-Disposition:".data i with
    | none => none
    | some j =>
      match cdAttempt h (j + 20) with
      | some nm => some nm
      | none => cdScanAux h fuel (j + 1)

def cdScan (h : List Char) : Option (List Char) :=
  cdScanAux h (h.length + 1) 0

/-- `headerSection.match(/filename="([^"]+)"/i)` (line 355). -/
def fnScanAux (h : List Char) : Nat → Nat → Option (List Char)
  | 0, _ => none
  | fuel + 1, i =>
    match ciFind h "filename=\"".data i with
    | none => none
    | some j =>
      let r := runNot '"' h (j + 10)
      if 1 ≤ r ∧ h[j + 10 + r]? = some '"' then some (seg h (j + 10) (j + 10 + r))
      else fnScanAux h fuel (j + 1)

def fnScan (h : List Char) : Option (List Char) :=
  fnScanAux h (h.length + 1) 0

/-- One position of the `\s*([^\r\n]+)` tail of the `Content-Type` regex. -/
def ctTryAt (h : List Char) (p : Nat) : Option (List Char) :=
  let r := ((h.drop p).takeWhile (fun c => !(c = '\r' || c = '\n'))).length
  if 1 ≤ r then some (seg h p (p + r)) else none

/-- Greedy `\s*` backtracking: positions `j + k, j + k - 1, …, j`. -/
def ctTry (h : List Char) (j : Nat) : Nat → Option (List Char)
  | 0 => ctTryAt h j
  | k + 1 =>
    match ctTryAt h (j + k + 1) with
    | some cap => some cap
    | none => ctTry h j k

/-- `headerSection.match(/Content-Type:\s*([^\r\n]+)/i)` (line 375). -/
def ctScanAux (h : List Char) : Nat → Nat → Option (List Char)
  | 0, _ => none
  | fuel + 1, i =>
    match ciFind h "Content-Type:".data i with
    | none => none
    | some j =>
      match ctTry h (j + 13) ((h.drop (j + 13)).takeWhile jsWs).length with
      | some cap => some cap
      | none => ctScanAux h fuel (j + 1)

def ctScan (h : List Char) : Option (List Char) :=
  ctScanAux h (h.length + 1) 0

/-- The extracted file of a multipart request. -/
structure FormData where
  filename : List Char
  contentType : List Char
  content : List Char
  deriving Repr, DecidableEq

/-- `list.slice(0, e)` for a possibly negative JS end index. -/
def jsSliceTo (l : List Char) (e : Int) : List Char :=
  if e < 0 then l.take (l.length - e.natAbs) else l.take e.toNat

/-- The content clean-up of the matched part (lines 378-390): drop a
trailing boundary remnant (when `lastIndexOf` finds one at a positive
index), then drop one trailing `\r\n` if present. -/
def cleanContent (bb content : List Char) : List Char :=
  let c1 :=
    match lastIndexOfList content bb with
    | some tbi => if 0 < tbi then jsSliceTo content ((tbi : Int) - 2) else content
    | none => content
  if 2 ≤ c1.length ∧ c1[c1.length - 2]? = some '\r' ∧ c1[c1.length - 1]? = some '\n' then
    c1.take (c1.length - 2)
  else c1

/-- The `for (const part of parts)` loop of `parseMultipartFormData`
(lines 334-398): the first part that has a `\r\n\r\n` header separator, a
`Content-Disposition` name of `image` or `file` and a filename is
returned; all other parts are skipped. -/
def findFilePart (bb : List Char) : List (List Char) → Option FormData
  | [] => none
  | part :: rest =>
    match indexOfFrom part "\r\n\r\n".data 0 with
    | none => findFilePart bb rest
    | some he =>
      let hs := part.take he
      let content := part.drop (he + 4)
      match cdScan hs with
      | none => findFilePart bb rest
      | some fieldName =>
        match fnScan hs with
        | none => findFilePart bb rest
        | some filename =>
          if fieldName = "image".data ∨ fieldName = "file".data then
            let fileCT :=
              match ctScan hs with
              | some c => jsTrim c
              | none => "application/octet-stream".data
            some ⟨filename, fileCT, cleanContent bb content⟩
          else findFilePart bb rest

/-- The relevant parts of the API Gateway event: the (transport-decoded)
body bytes and the `Content-Type` request header.  The base64 transport
decoding of line 299 is not modelled; `body` holds the decoded bytes. -/
structure MpEvent where
  body : Option (List Char)
  contentTypeHeader : List Char

/-- `parseMultipartFormData(event)` (lines 289-401).  An empty body
string is falsy in JS, so it fails the `if (!event.body)` guard. -/
def parseMultipartFormData (ev : MpEvent) : Option FormData :=
  match ev.body with
  | none => none
  | some buf =>
    if buf = [] then none
    else
      match getBoundary ev.contentTypeHeader with
      | none => none
      | some bd =>
        let bb := '-' :: '-' :: bd
        findFilePart bb (splitByBoundary buf bb)

/-! ### A canonical multipart encoder

`encodePart`/`encodeBody` build the well-formed multipart body described
by the round-trip property of spec §8 ("encoding arbitrary bytes into a
multipart body with a known boundary and filename"): one part per entry,
a `Content-Disposition` header carrying the field name and filename, a
`Content-Type` header, a blank line, the content, and CRLF-delimited
boundary lines with a terminating `--`. -/

/-- The header block of an encoded part (everything before the blank
line). -/
def hdrOf (n f ct : List Char) : List Char :=
  "Content-Disposition: form-data; name=\"".data ++ n ++ "\"; filename=\"".data ++ f
    ++ "\"\r\nContent-Type: ".data ++ ct

def encodePart (n f ct B : List Char) : List Char :=
  hdrOf n f ct ++ "\r\n\r\n".data ++ B

def encodeBody (bd : List Char) (parts : List (List Char)) : List Char :=
  ('-' :: '-' :: bd)
    ++ (parts.flatMap fun p => '\r' :: '\n' :: (p ++ '\r' :: '\n' :: '-' :: '-' :: bd))
    ++ "--".data

def mkRequest (bd : List Char) (parts : List (List Char)) : MpEvent :=
  ⟨some (encodeBody bd parts), "multipart/form-data; boundary=".data ++ bd⟩

/-- The stretch of the encoded body belonging to one part. -/
def regionOf (bd p : List Char) : List Char :=
  '\r' :: '\n' :: (p ++ '\r' :: '\n' :: '-' :: '-' :: bd)

/-- Multipart well-formedness (RFC 2046 §5.1.1: the delimiter must not
appear in the encapsulated data or headers): within one part's region the
first occurrence of `--boundary` is the closing delimiter. -/
def noEarlyOcc (bd p : List Char) : Prop :=
  ∀ i < p.length + 4, ¬ occursAt ('-' :: '-' :: bd) (regionOf bd p) i

/-! ## The upload handler's validation pipeline and response
(upload Lambda, src/unnamed/part_002 lines 81-281, and the constants of
src/src/types/index.ts lines 213-236) -/

/-- `ALLOWED_MIME_TYPES` (types/index.ts lines 216-221). -/
def allowedMimeTypes : List (List Char) :=
  ["image/jpeg".data, "image/png".data, "image/gif".data, "image/webp".data]

/-- `MAX_FILE_SIZE = 10 * 1024 * 1024` (types/index.ts line 226). -/
def MAX_FILE_SIZE : Nat := 10 * 1024 * 1024

/-- `MIME_TO_EXTENSION[contentType] || '.jpg'` (types/index.ts lines
231-236 and part_002 line 142). -/
def mimeToExtension (ct : List Char) : List Char :=
  if ct = "image/jpeg".data then ".jpg".data
  else if ct = "image/png".data then ".png".data
  else if ct = "image/gif".data then ".gif".data
  else if ct = "image/webp".data then ".webp".data
  else ".jpg".data

/-- The `ImageMetadata` item written by the upload handler
(part_002 lines 180-189).  Note: this revision writes no `userId`. -/
structure ImageMetadataRec where
  imageId : List Char
  filename : List Char
  originalName : List Char
  mimetype : List Char
  size : Nat
  uploadedAt : List Char
  s3Key : List Char
  status : List Char
  deriving Repr, DecidableEq

/-- The SQS `ImageUploadMessage` sent by the upload handler
(part_002 lines 205-212). -/
structure UploadMessageRec where
  imageId : List Char
  filename : List Char
  s3Key : List Char
  mimetype : List Char
  uploadedAt : List Char
  correlationId : List Char
  deriving Repr, DecidableEq

/-- The `responseData` object of the 201 response (part_002 lines
239-247).  Its fields are exactly those listed in
`uploadDataJsonFields`; the revision under src/ sets no `userId`. -/
structure UploadData where
  id : List Char
  filename : List Char
  originalName : List Char
  mimetype : List Char
  size : Nat
  uploadedAt : List Char
  path : List Char
  deriving Repr, DecidableEq

/-- The JSON keys of the success `data` object, in the order they are
written in the `responseData` literal (part_002 lines 239-247). -/
def uploadDataJsonFields : List String :=
  ["id", "filename", "originalName", "mimetype", "size", "uploadedAt", "path"]

/-- The required fields of the `UploadResponseData` interface declared in
src/src/types/index.ts lines 179-191 (the optional geo/time fields are
omitted). -/
def uploadResponseDataRequiredFields : List String :=
  ["id", "userId", "filename", "originalName", "mimetype", "size", "uploadedAt", "path"]

/-- The externally visible writes of one upload invocation, in program
order: the S3 `PutObjectCommand`, the DynamoDB `PutCommand`, the SQS
`SendMessageCommand`. -/
inductive UploadEffect
  | s3Put (key : List Char) (body : List Char) (contentType : List Char)
  | dbPut (item : ImageMetadataRec)
  | sqsSend (msg : UploadMessageRec)
  deriving Repr, DecidableEq

inductive UploadResp
  | err (status : Nat) (msg : List Char)
  | ok (status : Nat) (data : UploadData)
  deriving Repr, DecidableEq

def UploadResp.statusCode : UploadResp → Nat
  | .err s _ => s
  | .ok s _ => s

/-- The upload handler after multipart extraction (part_002 lines
114-267): validate the content type against the allow-list, validate the
size against `MAX_FILE_SIZE` (strictly-greater check, line 129), then
perform the three writes and return 201.  The generated UUID, the
timestamp and the correlation id are inputs. -/
def uploadHandlerCore (fd : FormData) (imageId now corrId : List Char) :
    UploadResp × List UploadEffect :=
  if fd.contentType ∉ allowedMimeTypes then
    (.err 400 "Invalid file type. Allowed types: image/jpeg, image/png, image/gif, image/webp".data, [])
  else if MAX_FILE_SIZE < fd.content.length then
    (.err 400 "File too large. Maximum size: 10MB".data, [])
  else
    let storedFilename := imageId ++ mimeToExtension fd.contentType
    let s3Key := "images/".data ++ storedFilename
    (.ok 201
      ⟨imageId, storedFilename, fd.filename, fd.contentType, fd.content.length, now,
        "/api/images/".data ++ imageId⟩,
      [.s3Put s3Key fd.content fd.contentType,
       .dbPut ⟨imageId, storedFilename, fd.filename, fd.contentType, fd.content.length, now,
         s3Key, "uploaded".data⟩,
       .sqsSend ⟨imageId, storedFilename, s3Key, fd.contentType, now, corrId⟩])

/-- The whole upload handler (part_002 lines 81-281): parse the multipart
body, reject with 400 when nothing was extracted, otherwise validate and
run. -/
def uploadHandler (ev : MpEvent) (imageId now corrId : List Char) :
    UploadResp × List UploadEffect :=
  match parseMultipartFormData ev with
  | none => (.err 400 "No file uploaded or invalid multipart data".data, [])
  | some fd => uploadHandlerCore fd imageId now corrId

/-! ## The query handler's ownership rule and cascading delete

The revision of src/src/handlers/query.ts included under src/ predates
the per-owner access control and the delete endpoint: it serves
unfiltered lists and routes no DELETE method, while
src/src/types/index.ts, src/src/handlers/auth.ts and the CDK stack of the
same snapshot already declare and use per-owner `userId` attributes,
`userId` global secondary indexes and an `admin` Cognito group.  The
definitions below are therefore modelled from the specification. -/

/-- Pre-validated request claims (spec glossary; `JwtClaims` of
types/index.ts): the caller's subject id and whether the `cognito:groups`
claim contains `admin`. -/
structure JwtCaller where
  sub : String
  isAdmin : Bool
  deriving Repr, DecidableEq

/-- An image record as far as ownership and deletion are concerned
(`ImageMetadata`, types/index.ts lines 106-119). -/
structure ImageRecordS where
  imageId : String
  userId : String
  s3Key : String
  deriving Repr, DecidableEq

/-- An analysis record as far as ownership is concerned
(`ImageAnalysis`, types/index.ts lines 129-139). -/
structure AnalysisRecordS where
  imageId : String
  userId : String
  deriving Repr, DecidableEq

/-- Modelled from the spec: the owner-filtered `GET /api/images` listing
of the query handler, which is absent from the query.ts revision under
src/.  Spec §4.5: "admin role bypasses ownership, otherwise the record's
owner identifier must equal the caller's identifier extracted from
trusted request claims"; §6: "`GET /api/images` → list, owner-filtered
unless admin". -/
def listImagesFor (c : JwtCaller) (table : List ImageRecordS) : List ImageRecordS :=
  if c.isAdmin then table else table.filter (fun r => r.userId == c.sub)

/-- Modelled from the spec: the owner-filtered `GET /api/analysis`
listing (same ownership rule, spec §6: "same ownership rule"). -/
def listAnalysisFor (c : JwtCaller) (table : List AnalysisRecordS) : List AnalysisRecordS :=
  if c.isAdmin then table else table.filter (fun r => r.userId == c.sub)

/-- The three stores the delete endpoint touches, keyed by S3 key
resp. image id. -/
structure QueryStore where
  s3 : String → Option (List Char)
  images : String → Option ImageRecordS
  analysis : String → Option AnalysisRecordS

/-- Modelled from the spec: `DELETE /api/images/{id}`, absent from the
query.ts revision under src/.  Spec §6: "cascading delete (object +
metadata + analysis)"; §3: "an image record and its analysis record share
the same identifier and must be created/deleted together (co-deletion is
enforced by the delete operation)"; ownership per §4.5, with 404 for a
missing record and 403 for a foreign one (spec §7 taxonomy). -/
def deleteImageOp (c : JwtCaller) (st : QueryStore) (id : String) : QueryStore × Nat :=
  match st.images id with
  | none => (st, 404)
  | some img =>
    if c.isAdmin = true ∨ img.userId = c.sub then
      ({ s3 := fun k => if k = img.s3Key then none else st.s3 k,
         images := fun k => if k = id then none else st.images k,
         analysis := fun k => if k = id then none else st.analysis k }, 200)
    else (st, 403)

/-- A form-data value whose content is exactly 10485760 bytes (used by
the C10 witness). -/
def maxSizeFd : FormData :=
  ⟨"p.jpg".data, "image/jpeg".data, List.replicate 10485760 'x'⟩

/-- Concrete store for the C2 witness: one image `i1` owned by `u1` with
object key `k1`, and its analysis record. -/
def witnessStore : QueryStore :=
  ⟨fun k => if k = "k1" then some ['x'] else none,
   fun k => if k = "i1" then some ⟨"i1", "u1", "k1"⟩ else none,
   fun k => if k = "i1" then some ⟨"i1", "u1"⟩ else none⟩

/-! ## Supporting lemmas -/

/-! ### Characterising the scanning primitives -/

theorem ciStarts_length {pat l : List Char} (h : ciStarts pat l) :
    pat.length ≤ l.length := by
  unfold ciStarts at h
  have := congrArg List.length h
  simp [List.length_take] at this
  omega

theorem ciStarts_getElem {pat l : List Char} (h : ciStarts pat l)
    (k : Nat) (hk : k < pat.length) :
    ∃ c p, l[k]? = some c ∧ pat[k]? = some p ∧ c.toLower = p.toLower := by
  have hl := ciStarts_length h
  unfold ciStarts at h
  have h1 : ((l.take pat.length).map Char.toLower)[k]? = ((pat.map Char.toLower))[k]? := by
    rw [h]
  rw [List.getElem?_map, List.getElem?_map, List.getElem?_take_of_lt hk] at h1
  rcases hp : pat[k]? with _ | p
  · rw [List.getElem?_eq_none_iff] at hp
    omega
  · rcases hc : l[k]? with _ | c
    · rw [List.getElem?_eq_none_iff] at hc
      omega
    · rw [hp, hc] at h1
      simp only [Option.map_some'] at h1
      exact ⟨c, p, rfl, rfl, by exact Option.some.inj h1⟩

theorem ciStarts_self_append (pat rest : List Char) : ciStarts pat (pat ++ rest) := by
  unfold ciStarts
  rw [List.take_left]

theorem ciStarts_append_left {pat X : List Char} (Y : List Char)
    (h : pat.length ≤ X.length) : ciStarts pat (X ++ Y) ↔ ciStarts pat X := by
  unfold ciStarts
  rw [List.take_append_eq_append_take, Nat.sub_eq_zero_of_le h, List.take_zero,
    List.append_nil]

theorem occursAt_length {pat l : List Char} {i : Nat} (h : occursAt pat l i)
    (hp : pat ≠ []) : i + pat.length ≤ l.length := by
  unfold occursAt at h
  have hlen := congrArg List.length h
  simp [List.length_take] at hlen
  have hp' : 0 < pat.length := List.length_pos.mpr hp
  omega

theorem occursAt_getElem {pat l : List Char} {i : Nat} (h : occursAt pat l i)
    (k : Nat) (hk : k < pat.length) : l[i + k]? = pat[k]? := by
  unfold occursAt at h
  have h1 : ((l.drop i).take pat.length)[k]? = pat[k]? := by rw [h]
  rw [List.getElem?_take_of_lt hk, List.getElem?_drop] at h1
  exact h1

/-- Occurrences shift across a left context. -/
theorem occursAt_append_add {pat X Y : List Char} {k : Nat} :
    occursAt pat (X ++ Y) (X.length + k) ↔ occursAt pat Y k := by
  unfold occursAt
  rw [List.drop_append_eq_append_drop, List.drop_of_length_le (by omega),
    Nat.add_sub_cancel_left, List.nil_append]

/-- An occurrence whose window lies inside the left part restricts
there. -/
theorem occursAt_append_left_of {pat X : List Char} (Y : List Char) {i : Nat}
    (h : occursAt pat (X ++ Y) i) (hw : i + pat.length ≤ X.length) :
    occursAt pat X i := by
  unfold occursAt at h ⊢
  rw [List.drop_append_eq_append_drop, Nat.sub_eq_zero_of_le (by omega),
    List.drop_zero, List.take_append_eq_append_take] at h
  rw [Nat.sub_eq_zero_of_le (by simp [List.length_drop]; omega), List.take_zero,
    List.append_nil] at h
  exact h

/-- An occurrence inside the left part extends to the append. -/
theorem occursAt_append_left_ext {pat X : List Char} (Y : List Char) {i : Nat}
    (h : occursAt pat X i) (hw : i + pat.length ≤ X.length) :
    occursAt pat (X ++ Y) i := by
  unfold occursAt at h ⊢
  rw [List.drop_append_eq_append_drop, Nat.sub_eq_zero_of_le (by omega),
    List.drop_zero, List.take_append_eq_append_take,
    Nat.sub_eq_zero_of_le (by simp [List.length_drop]; omega), List.take_zero,
    List.append_nil]
  exact h

theorem idxAux_eq_some {l pat : List Char} {j : Nat}
    (hj : occursAt pat l j) (hfit : j + pat.length ≤ l.length) :
    ∀ {fuel start : Nat}, start ≤ j →
      (∀ i, start ≤ i → i < j → ¬ occursAt pat l i) →
      j - start < fuel →
      idxAux l pat fuel start = some j := by
  intro fuel
  induction fuel with
  | zero => intro start _ _ hf; omega
  | succ fuel ih =>
    intro start hsj hnone hf
    unfold idxAux
    by_cases heq : start = j
    · subst heq
      rw [if_neg (by omega), if_pos hj]
    · have hlt : start < j := by omega
      rw [if_neg (by omega), if_neg (hnone start (Nat.le_refl start) hlt)]
      exact ih (by omega) (fun i h1 h2 => hnone i (by omega) h2) (by omega)

theorem idxAux_eq_none {l pat : List Char} :
    ∀ (fuel start : Nat), (∀ i, start ≤ i → ¬ occursAt pat l i) →
      idxAux l pat fuel start = none := by
  intro fuel
  induction fuel with
  | zero => intro start _; rfl
  | succ fuel ih =>
    intro start h
    unfold idxAux
    by_cases hg : l.length < start + pat.length
    · rw [if_pos hg]
    · rw [if_neg hg, if_neg (h start (Nat.le_refl start))]
      exact ih (start + 1) (fun i hi => h i (by omega))

theorem indexOfFrom_eq_some {l pat : List Char} {start j : Nat}
    (hsj : start ≤ j) (hj : occursAt pat l j) (hfit : j + pat.length ≤ l.length)
    (hnone : ∀ i, start ≤ i → i < j → ¬ occursAt pat l i) :
    indexOfFrom l pat start = some j := by
  unfold indexOfFrom
  exact idxAux_eq_some hj hfit hsj hnone (by omega)

theorem indexOfFrom_eq_none {l pat : List Char} {start : Nat}
    (h : ∀ i, start ≤ i → ¬ occursAt pat l i) :
    indexOfFrom l pat start = none := by
  unfold indexOfFrom
  exact idxAux_eq_none _ start h

theorem ciFindAux_eq_some {l pat : List Char} {j : Nat}
    (hj : ciStarts pat (l.drop j)) (hjl : j ≤ l.length) :
    ∀ {fuel start : Nat}, start ≤ j →
      (∀ i, start ≤ i → i < j → ¬ ciStarts pat (l.drop i)) →
      j - start < fuel →
      ciFindAux l pat fuel start = some j := by
  intro fuel
  induction fuel with
  | zero => intro start _ _ hf; omega
  | succ fuel ih =>
    intro start hsj hnone hf
    unfold ciFindAux
    by_cases heq : start = j
    · subst heq
      rw [if_neg (by omega), if_pos hj]
    · have hlt : start < j := by omega
      rw [if_neg (by omega), if_neg (hnone start (Nat.le_refl start) hlt)]
      exact ih (by omega) (fun i h1 h2 => hnone i (by omega) h2) (by omega)

theorem ciFind_eq_some {l pat : List Char} {start j : Nat}
    (hsj : start ≤ j) (hjl : j ≤ l.length) (hj : ciStarts pat (l.drop j))
    (hnone : ∀ i, start ≤ i → i < j → ¬ ciStarts pat (l.drop i)) :
    ciFind l pat start = some j := by
  unfold ciFind
  exact ciFindAux_eq_some hj hjl hsj hnone (by omega)

theorem lastIdxAux_eq_none {l pat : List Char}
    (h : ∀ i, ¬ occursAt pat l i) :
    ∀ m, lastIdxAux l pat m = none := by
  intro m
  induction m with
  | zero => unfold lastIdxAux; rw [if_neg (h 0)]
  | succ m ih => unfold lastIdxAux; rw [if_neg (h (m + 1))]; exact ih

theorem lastIndexOfList_eq_none {l pat : List Char}
    (h : ∀ i, ¬ occursAt pat l i) :
    lastIndexOfList l pat = none := by
  unfold lastIndexOfList
  by_cases hle : pat.length ≤ l.length
  · rw [if_pos hle]; exact lastIdxAux_eq_none h _
  · rw [if_neg hle]

/-- `takeWhile` keeps a list all of whose elements satisfy the
predicate. -/
theorem takeWhile_all {p : Char → Bool} {l : List Char}
    (h : ∀ a ∈ l, p a = true) : l.takeWhile p = l := by
  induction l with
  | nil => rfl
  | cons a t ih =>
    rw [List.takeWhile_cons, if_pos (h a (List.mem_cons_self a t)),
      ih (fun b hb => h b (List.mem_cons_of_mem a hb))]

/-- Element lookup across an append at an offset past the left part. -/
theorem getElem?_concat {X Y : List Char} {n : Nat} (k : Nat) (h : n = X.length + k) :
    (X ++ Y)[n]? = Y[k]? := by
  subst h
  rw [List.getElem?_append_right (by omega)]
  congr 1
  omega

/-- Drop across an append at an offset past the left part. -/
theorem drop_concat {X Y : List Char} {n : Nat} (k : Nat) (h : n = X.length + k) :
    (X ++ Y).drop n = Y.drop k := by
  subst h
  rw [List.drop_append_eq_append_drop, List.drop_of_length_le (by omega)]
  simp

/-- Take of the left part of an append. -/
theorem take_concat_left {X Y : List Char} {n : Nat} (h : n = X.length) :
    (X ++ Y).take n = X := by
  subst h
  exact List.take_left X Y

theorem occursAt_start (pat rest : List Char) : occursAt pat (pat ++ rest) 0 := by
  unfold occursAt
  rw [List.drop_zero, List.take_left]

/-! ### The split of a canonically encoded body -/

/-- The concatenation of the per-part regions of an encoded body. -/
def flatRegions (bd : List Char) (ps : List (List Char)) : List Char :=
  ps.flatMap (regionOf bd)

theorem encodeBody_eq (bd : List Char) (ps : List (List Char)) :
    encodeBody bd ps = ('-' :: '-' :: bd) ++ flatRegions bd ps ++ ['-', '-'] := rfl

theorem regionOf_decomp (bd p : List Char) :
    regionOf bd p = ('\r' :: '\n' :: (p ++ ['\r', '\n'])) ++ ('-' :: '-' :: bd) := by
  unfold regionOf
  simp

theorem regionOf_length (bd p : List Char) :
    (regionOf bd p).length = p.length + bd.length + 6 := by
  unfold regionOf
  simp
  omega

/-- The split loop maps a canonically encoded tail of regions back to the
list of parts: every step finds the closing delimiter of the current
region, strips the surrounding CRLFs, and stops at the terminating
`--`. -/
theorem sbGo_spec (bd : List Char) (hbd : bd ≠ []) :
    ∀ (ps : List (List Char)) (C : List Char) (fuel : Nat),
      0 < C.length →
      (∀ p ∈ ps, p ≠ [] ∧ noEarlyOcc bd p) →
      (C ++ flatRegions bd ps ++ ['-', '-']).length + 1 - C.length ≤ fuel →
      sbGo (C ++ flatRegions bd ps ++ ['-', '-']) '-' ('-' :: bd) fuel C.length = ps := by
  intro ps
  induction ps with
  | nil =>
    intro C fuel hC hps hfuel
    have hbd0 : 0 < bd.length := List.length_pos.mpr hbd
    have hflat : flatRegions bd ([] : List (List Char)) = [] := rfl
    have hlen : (C ++ flatRegions bd ([] : List (List Char)) ++ ['-', '-']).length =
        C.length + 2 := by
      rw [hflat]
      simp only [List.length_append, List.length_cons, List.length_nil,
        List.append_nil]
      try omega
    rw [hlen] at hfuel
    obtain ⟨f, rfl⟩ : ∃ f, fuel = f + 1 := ⟨fuel - 1, by omega⟩
    have hnone : indexOfFrom (C ++ flatRegions bd ([] : List (List Char)) ++ ['-', '-'])
        ('-' :: '-' :: bd) C.length = none := by
      apply indexOfFrom_eq_none
      intro i hi hocc
      have hfit := occursAt_length hocc (by simp)
      rw [hlen] at hfit
      simp only [List.length_cons] at hfit
      omega
    unfold sbGo
    rw [hnone]
  | cons p ps' ih =>
    intro C fuel hC hps hfuel
    obtain ⟨hpne, hpnoE⟩ := hps p (List.mem_cons_self _ _)
    have hp0 : 0 < p.length := List.length_pos.mpr hpne
    have hbd0 : 0 < bd.length := List.length_pos.mpr hbd
    have hflat : flatRegions bd (p :: ps') = regionOf bd p ++ flatRegions bd ps' := by
      unfold flatRegions
      rw [List.flatMap_cons]
    -- the fully right-associated shape of the buffer
    have hshape : C ++ flatRegions bd (p :: ps') ++ ['-', '-'] =
        C ++ (['\r', '\n'] ++ (p ++ (['\r', '\n'] ++ (('-' :: '-' :: bd) ++
          (flatRegions bd ps' ++ ['-', '-']))))) := by
      rw [hflat, regionOf_decomp]
      simp
    have hfuellen : (C ++ flatRegions bd (p :: ps') ++ ['-', '-']).length =
        C.length + p.length + bd.length + (flatRegions bd ps').length + 8 := by
      rw [hflat]
      simp only [List.length_append, List.length_cons, List.length_nil,
        regionOf_length]
      omega
    rw [hfuellen] at hfuel
    rw [hshape]
    set F := flatRegions bd ps' with hF
    set Z := C ++ (['\r', '\n'] ++ (p ++ (['\r', '\n'] ++ (('-' :: '-' :: bd) ++
      (F ++ ['-', '-']))))) with hZ
    have hZlen : Z.length = C.length + p.length + bd.length + F.length + 8 := by
      rw [hZ]
      simp only [List.length_append, List.length_cons, List.length_nil]
      omega
    -- the closing delimiter of the first region
    have hocc : occursAt ('-' :: '-' :: bd) Z (C.length + (p.length + 4)) := by
      have hgrp : Z = (C ++ (['\r', '\n'] ++ (p ++ ['\r', '\n']))) ++
          (('-' :: '-' :: bd) ++ (F ++ ['-', '-'])) := by
        rw [hZ]
        simp
      rw [hgrp]
      have hlen2 : (C ++ (['\r', '\n'] ++ (p ++ ['\r', '\n']))).length =
          C.length + (p.length + 4) := by
        simp only [List.length_append, List.length_cons, List.length_nil]
        omega
      have hiff : occursAt ('-' :: '-' :: bd)
          ((C ++ (['\r', '\n'] ++ (p ++ ['\r', '\n']))) ++
            (('-' :: '-' :: bd) ++ (F ++ ['-', '-'])))
          ((C ++ (['\r', '\n'] ++ (p ++ ['\r', '\n']))).length + 0) ↔
          occursAt ('-' :: '-' :: bd)
            (('-' :: '-' :: bd) ++ (F ++ ['-', '-'])) 0 :=
        occursAt_append_add
      rw [hlen2] at hiff
      have := hiff.mpr (occursAt_start _ _)
      simpa using this
    have hnoearly : ∀ i, C.length ≤ i → i < C.length + (p.length + 4) →
        ¬ occursAt ('-' :: '-' :: bd) Z i := by
      intro i h1 h2 hocc'
      have hgrp : Z = (C ++ regionOf bd p) ++ (F ++ ['-', '-']) := by
        rw [hZ, regionOf_decomp]
        simp
      have hCR : (C ++ regionOf bd p).length = C.length + p.length + bd.length + 6 := by
        simp only [List.length_append, regionOf_length]
        omega
      rw [hgrp] at hocc'
      have hocc2 : occursAt ('-' :: '-' :: bd) (C ++ regionOf bd p) i :=
        occursAt_append_left_of _ hocc'
          (by rw [hCR]; simp only [List.length_cons]; omega)
      have hsplit : C.length + (i - C.length) = i := by omega
      rw [← hsplit] at hocc2
      have hocc3 := occursAt_append_add.mp hocc2
      exact hpnoE (i - C.length) (by omega) hocc3
    have hidx : indexOfFrom Z ('-' :: '-' :: bd) C.length =
        some (C.length + (p.length + 4)) := by
      apply indexOfFrom_eq_some (by omega) hocc ?fit hnoearly
      case fit =>
        rw [hZlen]
        simp only [List.length_cons]
        omega
    obtain ⟨f, rfl⟩ : ∃ f, fuel = f + 1 := ⟨fuel - 1, by omega⟩
    unfold sbGo
    rw [hidx]
    dsimp only
    -- the `\r\n` after the previous boundary
    have hcr1 : Z[C.length]? = some '\r' := by
      rw [hZ, getElem?_concat (0) (by omega)]
      rfl
    have hcr2 : Z[C.length + 1]? = some '\n' := by
      rw [hZ, getElem?_concat (1) rfl]
      simp
    rw [if_pos hC,
      if_pos (show Z[C.length]? = some '\r' ∧ Z[C.length + 1]? = some '\n' from
        ⟨hcr1, hcr2⟩)]
    -- the `\r\n` before the found boundary
    have hgrp2 : Z = (C ++ ['\r', '\n'] ++ p) ++
        (['\r', '\n'] ++ (('-' :: '-' :: bd) ++ (F ++ ['-', '-']))) := by
      rw [hZ]
      simp
    have hgrp2len : (C ++ ['\r', '\n'] ++ p).length = C.length + p.length + 2 := by
      simp only [List.length_append, List.length_cons, List.length_nil]
      omega
    have hcr3 : Z[C.length + (p.length + 4) - 2]? = some '\r' := by
      rw [hgrp2, getElem?_concat (0) (by rw [hgrp2len]; omega)]
      rfl
    have hcr4 : Z[C.length + (p.length + 4) - 1]? = some '\n' := by
      rw [hgrp2, getElem?_concat (1) (by rw [hgrp2len]; omega)]
      simp
    rw [if_pos (show 2 ≤ C.length + (p.length + 4) ∧
        Z[C.length + (p.length + 4) - 2]? = some '\r' ∧
        Z[C.length + (p.length + 4) - 1]? = some '\n' from ⟨by omega, hcr3, hcr4⟩),
      if_pos (show C.length + 2 < C.length + (p.length + 4) - 2 by omega)]
    -- the extracted piece is exactly `p`
    have hgrp3 : Z = (C ++ ['\r', '\n']) ++
        (p ++ (['\r', '\n'] ++ (('-' :: '-' :: bd) ++ (F ++ ['-', '-'])))) := by
      rw [hZ]
      simp
    have hgrp3len : (C ++ ['\r', '\n']).length = C.length + 2 := by
      simp
    have hseg : seg Z (C.length + 2) (C.length + (p.length + 4) - 2) = p := by
      unfold seg
      have harith : C.length + (p.length + 4) - 2 - (C.length + 2) = p.length := by
        omega
      rw [harith, hgrp3, drop_concat (0) (by rw [hgrp3len]),
        List.drop_zero, take_concat_left rfl]
    rw [hseg]
    -- after the boundary: either the terminating `--` or the next region
    have hgrp4 : Z = (C ++ regionOf bd p) ++ (F ++ ['-', '-']) := by
      rw [hZ, regionOf_decomp]
      simp
    have hCRlen : (C ++ regionOf bd p).length = C.length + p.length + bd.length + 6 := by
      simp only [List.length_append, regionOf_length]
      omega
    have hstart' : C.length + (p.length + 4) + ('-' :: bd).length + 1 =
        (C ++ regionOf bd p).length + 0 := by
      rw [hCRlen]
      simp only [List.length_cons]
      omega
    have hstart'1 : C.length + (p.length + 4) + ('-' :: bd).length + 1 + 1 =
        (C ++ regionOf bd p).length + 1 := by
      omega
    cases ps' with
    | nil =>
      have hFnil : F = [] := rfl
      have hd1 : Z[C.length + (p.length + 4) + ('-' :: bd).length + 1]? = some '-' := by
        rw [hgrp4, getElem?_concat (0) hstart', hFnil]
        rfl
      have hd2 : Z[C.length + (p.length + 4) + ('-' :: bd).length + 1 + 1]? =
          some '-' := by
        rw [hgrp4, getElem?_concat (1) hstart'1, hFnil]
        simp
      rw [if_pos (show Z[C.length + (p.length + 4) + ('-' :: bd).length + 1]? = some '-' ∧
        Z[C.length + (p.length + 4) + ('-' :: bd).length + 1 + 1]? = some '-' from
        ⟨hd1, hd2⟩)]
    | cons q ps'' =>
      have hFq : F = regionOf bd q ++ flatRegions bd ps'' := by
        rw [hF]
        unfold flatRegions
        rw [List.flatMap_cons]
      have hd1 : Z[C.length + (p.length + 4) + ('-' :: bd).length + 1]? = some '\r' := by
        rw [hgrp4, getElem?_concat (0) hstart', hFq, regionOf_decomp]
        rfl
      rw [if_neg (by rw [hd1]; simp)]
      -- recursive call on the remaining regions
      have hZ' : Z = (C ++ regionOf bd p) ++ F ++ ['-', '-'] := by
        rw [hgrp4]
        simp
      have hstart'' : C.length + (p.length + 4) + ('-' :: bd).length + 1 =
          (C ++ regionOf bd p).length := by
        omega
      have hrec : sbGo Z '-' ('-' :: bd) f
          (C.length + (p.length + 4) + ('-' :: bd).length + 1) = q :: ps'' := by
        rw [hstart'', hZ']
        apply ih (C ++ regionOf bd p) f
        · rw [List.length_append]
          omega
        · exact fun r hr => hps r (List.mem_cons_of_mem _ hr)
        · have h2 : ((C ++ regionOf bd p) ++ F ++ ['-', '-']).length =
              C.length + p.length + bd.length + F.length + 8 := by
            simp only [List.length_append, List.length_cons, List.length_nil,
              regionOf_length]
            omega
          rw [h2, hCRlen]
          omega
      rw [hrec]
      rfl

/-- `splitByBoundary` recovers the parts of a canonically encoded
multipart body. -/
theorem splitByBoundary_encode (bd : List Char) (hbd : bd ≠ [])
    (ps : List (List Char)) (hps : ∀ p ∈ ps, p ≠ [] ∧ noEarlyOcc bd p) :
    splitByBoundary (encodeBody bd ps) ('-' :: '-' :: bd) = ps := by
  have hbd0 : 0 < bd.length := List.length_pos.mpr hbd
  show sbGo (encodeBody bd ps) '-' ('-' :: bd) ((encodeBody bd ps).length + 1) 0 = ps
  set buf := encodeBody bd ps with hbuf
  have hshape : buf = ('-' :: '-' :: bd) ++ (flatRegions bd ps ++ ['-', '-']) := by
    rw [hbuf, encodeBody_eq]
    simp
  have hbuflen : buf.length = bd.length + (flatRegions bd ps).length + 4 := by
    rw [hshape]
    simp only [List.length_append, List.length_cons, List.length_nil]
    omega
  have hidx : indexOfFrom buf ('-' :: '-' :: bd) 0 = some 0 := by
    apply indexOfFrom_eq_some (Nat.le_refl 0) ?occ ?fit (fun i h1 h2 => by omega)
    case occ => rw [hshape]; exact occursAt_start _ _
    case fit => rw [hbuflen]; simp only [List.length_cons]; omega
  unfold sbGo
  rw [hidx]
  dsimp only
  rw [if_neg (show ¬ 0 < 0 by omega)]
  have hstart' : 0 + ('-' :: bd).length + 1 = ('-' :: '-' :: bd).length + 0 := by
    simp only [List.length_cons]
    omega
  cases ps with
  | nil =>
    have hflat : flatRegions bd ([] : List (List Char)) = [] := rfl
    have hd1 : buf[0 + ('-' :: bd).length + 1]? = some '-' := by
      rw [hshape, getElem?_concat (0) hstart', hflat]
      rfl
    have hd2 : buf[0 + ('-' :: bd).length + 1 + 1]? = some '-' := by
      rw [hshape, getElem?_concat (1) (by omega), hflat]
      rfl
    rw [if_pos (show buf[0 + ('-' :: bd).length + 1]? = some '-' ∧
      buf[0 + ('-' :: bd).length + 1 + 1]? = some '-' from ⟨hd1, hd2⟩)]
  | cons p ps' =>
    have hflat : flatRegions bd (p :: ps') = regionOf bd p ++ flatRegions bd ps' := by
      unfold flatRegions
      rw [List.flatMap_cons]
    have hd1 : buf[0 + ('-' :: bd).length + 1]? = some '\r' := by
      rw [hshape, getElem?_concat (0) hstart', hflat, regionOf_decomp]
      rfl
    rw [if_neg (by rw [hd1]; simp)]
    have hbufC : buf = ('-' :: '-' :: bd) ++ flatRegions bd (p :: ps') ++ ['-', '-'] := by
      rw [hshape]
      simp
    have hstart'' : 0 + ('-' :: bd).length + 1 = ('-' :: '-' :: bd).length := by
      simp only [List.length_cons]
      omega
    have hrec : sbGo buf '-' ('-' :: bd) buf.length (0 + ('-' :: bd).length + 1) =
        p :: ps' := by
      rw [hstart'', hbufC]
      apply sbGo_spec bd hbd (p :: ps') ('-' :: '-' :: bd) buf.length
        (by simp) hps
      rw [← hbufC, hbuflen]
      simp only [List.length_cons]
      omega
    rw [hrec]
    rfl

/-! ### Positional structure of the encoded header

`hdrOf n f ct` lays out as
`cdA(38) ++ n ++ cdB(13) ++ f ++ lit3(17) ++ ct` with
`cdA = Content-Disposition: form-data; name="`,
`cdB = "; filename="` and `lit3 = "\r\nContent-Type: `, so the regions
start at offsets 0, 38, 38+|n|, 51+|n|, 51+|n|+|f| and 68+|n|+|f|. -/

theorem hdr_ra (n f ct : List Char) : hdrOf n f ct =
    "Content-Disposition: form-data; name=\"".data ++ (n ++ ("\"; filename=\"".data ++
      (f ++ ("\"\r\nContent-Type: ".data ++ ct)))) := by
  unfold hdrOf
  simp

theorem hdr_grpB (n f ct : List Char) : hdrOf n f ct =
    ("Content-Disposition: form-data; name=\"".data ++ n) ++ ("\"; filename=\"".data ++
      (f ++ ("\"\r\nContent-Type: ".data ++ ct))) := by
  unfold hdrOf
  simp

theorem hdr_grpF (n f ct : List Char) : hdrOf n f ct =
    ("Content-Disposition: form-data; name=\"".data ++ n ++ "\"; filename=\"".data) ++
      (f ++ ("\"\r\nContent-Type: ".data ++ ct)) := by
  unfold hdrOf
  simp

theorem hdr_grpL (n f ct : List Char) : hdrOf n f ct =
    ("Content-Disposition: form-data; name=\"".data ++ n ++ "\"; filename=\"".data ++ f) ++
      ("\"\r\nContent-Type: ".data ++ ct) := by
  unfold hdrOf
  simp

theorem hdr_grpCT (n f ct : List Char) : hdrOf n f ct =
    ("Content-Disposition: form-data; name=\"".data ++ n ++ "\"; filename=\"".data ++ f ++
      "\"\r\nContent-Type: ".data) ++ ct := by
  unfold hdrOf
  simp

theorem len_grpB (n : List Char) :
    ("Content-Disposition: form-data; name=\"".data ++ n).length = 38 + n.length := by
  simp only [List.length_append, List.length_cons, List.length_nil]
  try omega

theorem len_grpF (n : List Char) :
    ("Content-Disposition: form-data; name=\"".data ++ n ++ "\"; filename=\"".data).length =
      51 + n.length := by
  simp only [List.length_append, List.length_cons, List.length_nil]
  try omega

theorem len_grpL (n f : List Char) :
    ("Content-Disposition: form-data; name=\"".data ++ n ++ "\"; filename=\"".data ++
      f).length = 51 + n.length + f.length := by
  simp only [List.length_append, List.length_cons, List.length_nil]
  try omega

theorem len_grpCT (n f : List Char) :
    ("Content-Disposition: form-data; name=\"".data ++ n ++ "\"; filename=\"".data ++ f ++
      "\"\r\nContent-Type: ".data).length = 68 + n.length + f.length := by
  simp only [List.length_append, List.length_cons, List.length_nil]
  try omega

theorem hdr_length (n f ct : List Char) :
    (hdrOf n f ct).length = 68 + n.length + f.length + ct.length := by
  rw [hdr_grpCT]
  rw [List.length_append, len_grpCT]

/-- Lookup inside the leading `Content-Disposition…name="` literal. -/
theorem hdrA (n f ct : List Char) {i : Nat} (hi : i < 38) :
    (hdrOf n f ct)[i]? = ("Content-Disposition: form-data; name=\"".data)[i]? := by
  rw [hdr_ra]
  exact List.getElem?_append_left
    (by simp only [List.length_cons, List.length_nil]; omega)

/-- Lookup inside the field-name region. -/
theorem hdrN (n f ct : List Char) {k : Nat} (hk : k < n.length) :
    (hdrOf n f ct)[38 + k]? = n[k]? := by
  rw [hdr_ra, getElem?_concat (k)
    (by simp only [List.length_cons, List.length_nil]; try omega)]
  exact List.getElem?_append_left hk

/-- Lookup inside the `"; filename="` literal. -/
theorem hdrB (n f ct : List Char) {k : Nat} (hk : k < 13) :
    (hdrOf n f ct)[38 + n.length + k]? = ("\"; filename=\"".data)[k]? := by
  rw [hdr_grpB, getElem?_concat (k) (by rw [len_grpB])]
  exact List.getElem?_append_left
    (by simp only [List.length_cons, List.length_nil]; omega)

/-- Lookup inside the filename region. -/
theorem hdrF (n f ct : List Char) {k : Nat} (hk : k < f.length) :
    (hdrOf n f ct)[51 + n.length + k]? = f[k]? := by
  rw [hdr_grpF, getElem?_concat (k) (by rw [len_grpF])]
  exact List.getElem?_append_left hk

/-- Lookup inside the `"\r\nContent-Type: ` literal. -/
theorem hdrL (n f ct : List Char) {k : Nat} (hk : k < 17) :
    (hdrOf n f ct)[51 + n.length + f.length + k]? =
      ("\"\r\nContent-Type: ".data)[k]? := by
  rw [hdr_grpL, getElem?_concat (k) (by rw [len_grpL])]
  exact List.getElem?_append_left
    (by simp only [List.length_cons, List.length_nil]; omega)

/-- Lookup inside the content-type region. -/
theorem hdrCT (n f ct : List Char) (k : Nat) :
    (hdrOf n f ct)[68 + n.length + f.length + k]? = ct[k]? := by
  rw [hdr_grpCT, getElem?_concat (k) (by rw [len_grpCT])]

/-- The quote positions of the header: the four encoder-placed quotes,
or inside the unconstrained content-type region. -/
theorem hdr_quotes (n f ct : List Char) (hn : '"' ∉ n) (hf : '"' ∉ f) :
    ∀ i, (hdrOf n f ct)[i]? = some '"' →
      i = 37 ∨ i = 38 + n.length ∨ i = 50 + n.length ∨ i = 51 + n.length + f.length ∨
        68 + n.length + f.length ≤ i := by
  intro i h
  rcases Nat.lt_or_ge i 38 with h1 | h1
  · rw [hdrA n f ct h1] at h
    have : ∀ j, j < 38 →
        ("Content-Disposition: form-data; name=\"".data)[j]? = some '"' → j = 37 := by
      decide
    exact Or.inl (this i h1 h)
  rcases Nat.lt_or_ge i (38 + n.length) with h2 | h2
  · obtain ⟨k, rfl⟩ : ∃ k, i = 38 + k := ⟨i - 38, by omega⟩
    rw [hdrN n f ct (by omega)] at h
    exact absurd (List.getElem?_mem h) hn
  rcases Nat.lt_or_ge i (51 + n.length) with h3 | h3
  · obtain ⟨k, rfl⟩ : ∃ k, i = 38 + n.length + k := ⟨i - (38 + n.length), by omega⟩
    rw [hdrB n f ct (by omega)] at h
    have : ∀ j, j < 13 → ("\"; filename=\"".data)[j]? = some '"' →
        j = 0 ∨ j = 12 := by
      decide
    rcases this _ (by omega) h with rfl | rfl
    · omega
    · omega
  rcases Nat.lt_or_ge i (51 + n.length + f.length) with h4 | h4
  · obtain ⟨k, rfl⟩ : ∃ k, i = 51 + n.length + k := ⟨i - (51 + n.length), by omega⟩
    rw [hdrF n f ct (by omega)] at h
    exact absurd (List.getElem?_mem h) hf
  rcases Nat.lt_or_ge i (68 + n.length + f.length) with h5 | h5
  · obtain ⟨k, rfl⟩ : ∃ k, i = 51 + n.length + f.length + k :=
      ⟨i - (51 + n.length + f.length), by omega⟩
    rw [hdrL n f ct (by omega)] at h
    have : ∀ j, j < 17 → ("\"\r\nContent-Type: ".data)[j]? = some '"' → j = 0 := by
      decide
    have := this _ (by omega) h
    omega
  · omega

/-- The colon positions of the header below the content-type region. -/
theorem hdr_colons (n f ct : List Char) (hn : ':' ∉ n) (hf : ':' ∉ f) :
    ∀ i, (hdrOf n f ct)[i]? = some ':' →
      i = 19 ∨ i = 66 + n.length + f.length ∨ 68 + n.length + f.length ≤ i := by
  intro i h
  rcases Nat.lt_or_ge i 38 with h1 | h1
  · rw [hdrA n f ct h1] at h
    have : ∀ j, j < 38 →
        ("Content-Disposition: form-data; name=\"".data)[j]? = some ':' → j = 19 := by
      decide
    exact Or.inl (this i h1 h)
  rcases Nat.lt_or_ge i (38 + n.length) with h2 | h2
  · obtain ⟨k, rfl⟩ : ∃ k, i = 38 + k := ⟨i - 38, by omega⟩
    rw [hdrN n f ct (by omega)] at h
    exact absurd (List.getElem?_mem h) hn
  rcases Nat.lt_or_ge i (51 + n.length) with h3 | h3
  · obtain ⟨k, rfl⟩ : ∃ k, i = 38 + n.length + k := ⟨i - (38 + n.length), by omega⟩
    rw [hdrB n f ct (by omega)] at h
    have : ∀ j, j < 13 → ("\"; filename=\"".data)[j]? ≠ some ':' := by
      decide
    exact absurd h (this _ (by omega))
  rcases Nat.lt_or_ge i (51 + n.length + f.length) with h4 | h4
  · obtain ⟨k, rfl⟩ : ∃ k, i = 51 + n.length + k := ⟨i - (51 + n.length), by omega⟩
    rw [hdrF n f ct (by omega)] at h
    exact absurd (List.getElem?_mem h) hf
  rcases Nat.lt_or_ge i (68 + n.length + f.length) with h5 | h5
  · obtain ⟨k, rfl⟩ : ∃ k, i = 51 + n.length + f.length + k :=
      ⟨i - (51 + n.length + f.length), by omega⟩
    rw [hdrL n f ct (by omega)] at h
    have : ∀ j, j < 17 → ("\"\r\nContent-Type: ".data)[j]? = some ':' → j = 15 := by
      decide
    have := this _ (by omega) h
    omega
  · omega

/-- The only carriage return of the header sits between the two header
lines. -/
theorem hdr_crs (n f ct : List Char) (hn : '\r' ∉ n) (hf : '\r' ∉ f)
    (hct : '\r' ∉ ct) :
    ∀ i, (hdrOf n f ct)[i]? = some '\r' → i = 52 + n.length + f.length := by
  intro i h
  rcases Nat.lt_or_ge i 38 with h1 | h1
  · rw [hdrA n f ct h1] at h
    have : ∀ j, j < 38 →
        ("Content-Disposition: form-data; name=\"".data)[j]? ≠ some '\r' := by
      decide
    exact absurd h (this i h1)
  rcases Nat.lt_or_ge i (38 + n.length) with h2 | h2
  · obtain ⟨k, rfl⟩ : ∃ k, i = 38 + k := ⟨i - 38, by omega⟩
    rw [hdrN n f ct (by omega)] at h
    exact absurd (List.getElem?_mem h) hn
  rcases Nat.lt_or_ge i (51 + n.length) with h3 | h3
  · obtain ⟨k, rfl⟩ : ∃ k, i = 38 + n.length + k := ⟨i - (38 + n.length), by omega⟩
    rw [hdrB n f ct (by omega)] at h
    have : ∀ j, j < 13 → ("\"; filename=\"".data)[j]? ≠ some '\r' := by
      decide
    exact absurd h (this _ (by omega))
  rcases Nat.lt_or_ge i (51 + n.length + f.length) with h4 | h4
  · obtain ⟨k, rfl⟩ : ∃ k, i = 51 + n.length + k := ⟨i - (51 + n.length), by omega⟩
    rw [hdrF n f ct (by omega)] at h
    exact absurd (List.getElem?_mem h) hf
  rcases Nat.lt_or_ge i (68 + n.length + f.length) with h5 | h5
  · obtain ⟨k, rfl⟩ : ∃ k, i = 51 + n.length + f.length + k :=
      ⟨i - (51 + n.length + f.length), by omega⟩
    rw [hdrL n f ct (by omega)] at h
    have : ∀ j, j < 17 → ("\"\r\nContent-Type: ".data)[j]? = some '\r' → j = 1 := by
      decide
    have := this _ (by omega) h
    omega
  · obtain ⟨k, rfl⟩ : ∃ k, i = 68 + n.length + f.length + k :=
      ⟨i - (68 + n.length + f.length), by omega⟩
    rw [hdrCT] at h
    exact absurd (List.getElem?_mem h) hct

/-! ### Suffixes of the encoded header at scan offsets -/

theorem drop_append_left {X Y : List Char} {i : Nat} (h : i ≤ X.length) :
    (X ++ Y).drop i = X.drop i ++ Y := by
  rw [List.drop_append_eq_append_drop, Nat.sub_eq_zero_of_le h, List.drop_zero]

theorem all_ne {t : Char} {l : List Char} (h : t ∉ l) :
    ∀ a ∈ l, (decide ¬(a = t)) = true := by
  intro a ha
  simp only [decide_eq_true_eq]
  intro he
  exact h (he ▸ ha)

theorem hdr_drop20 (n f ct : List Char) : (hdrOf n f ct).drop 20 =
    " form-data".data ++ (';' :: (" name=\"".data ++ (n ++ ("\"; filename=\"".data ++
      (f ++ ("\"\r\nContent-Type: ".data ++ ct)))))) := by
  have hsplit : "Content-Disposition: form-data; name=\"".data =
      "Content-Disposition:".data ++ (" form-data".data ++ (';' :: " name=\"".data)) := by
    decide
  rw [hdr_ra, hsplit]
  rw [drop_append_left (by decide)]
  simp

theorem hdr_drop31 (n f ct : List Char) : (hdrOf n f ct).drop 31 =
    " name=\"".data ++ (n ++ ('"' :: (';' :: (" filename=\"".data ++
      (f ++ ("\"\r\nContent-Type: ".data ++ ct)))))) := by
  have hsplit : "Content-Disposition: form-data; name=\"".data =
      "Content-Disposition: form-data;".data ++ " name=\"".data := by
    decide
  have hsplit2 : "\"; filename=\"".data = '"' :: (';' :: " filename=\"".data) := by
    decide
  rw [hdr_ra, hsplit, hsplit2]
  rw [drop_append_left (by decide)]
  simp

theorem hdr_drop32 (n f ct : List Char) : (hdrOf n f ct).drop 32 =
    "name=\"".data ++ (n ++ ('"' :: (';' :: (" filename=\"".data ++
      (f ++ ("\"\r\nContent-Type: ".data ++ ct)))))) := by
  have hsplit : "Content-Disposition: form-data; name=\"".data =
      "Content-Disposition: form-data; ".data ++ "name=\"".data := by
    decide
  have hsplit2 : "\"; filename=\"".data = '"' :: (';' :: " filename=\"".data) := by
    decide
  rw [hdr_ra, hsplit, hsplit2]
  rw [drop_append_left (by decide)]
  simp

theorem hdr_drop38 (n f ct : List Char) : (hdrOf n f ct).drop 38 =
    n ++ ('"' :: (';' :: (" filename=\"".data ++
      (f ++ ("\"\r\nContent-Type: ".data ++ ct))))) := by
  have hsplit2 : "\"; filename=\"".data = '"' :: (';' :: " filename=\"".data) := by
    decide
  rw [hdr_ra, hsplit2, drop_concat (0) (by decide), List.drop_zero]
  simp

theorem hdr_drop41 (n f ct : List Char) : (hdrOf n f ct).drop (41 + n.length) =
    "filename=\"".data ++ (f ++ ('"' :: ("\r\nContent-Type: ".data ++ ct))) := by
  have hsplit2 : "\"; filename=\"".data = "\"; ".data ++ "filename=\"".data := by
    decide
  have hsplit3 : "\"\r\nContent-Type: ".data = '"' :: "\r\nContent-Type: ".data := by
    decide
  have hgrp : hdrOf n f ct =
      ("Content-Disposition: form-data; name=\"".data ++ n ++ "\"; ".data) ++
        ("filename=\"".data ++ (f ++ ('"' :: ("\r\nContent-Type: ".data ++ ct)))) := by
    rw [hdr_ra, hsplit2, hsplit3]
    simp
  have hlen : ("Content-Disposition: form-data; name=\"".data ++ n ++ "\"; ".data).length =
      41 + n.length := by
    simp only [List.length_append, List.length_cons, List.length_nil]
    try omega
  rw [hgrp, drop_concat (0) (by rw [hlen]; omega), List.drop_zero]

theorem hdr_drop51 (n f ct : List Char) : (hdrOf n f ct).drop (51 + n.length) =
    f ++ ('"' :: ("\r\nContent-Type: ".data ++ ct)) := by
  have hsplit3 : "\"\r\nContent-Type: ".data = '"' :: "\r\nContent-Type: ".data := by
    decide
  have hgrp : hdrOf n f ct =
      ("Content-Disposition: form-data; name=\"".data ++ n ++ "\"; filename=\"".data) ++
        (f ++ ('"' :: ("\r\nContent-Type: ".data ++ ct))) := by
    rw [hdr_ra, hsplit3]
    simp
  rw [hgrp, drop_concat (0) (by rw [len_grpF]; omega), List.drop_zero]

theorem hdr_drop54 (n f ct : List Char) :
    (hdrOf n f ct).drop (54 + n.length + f.length) =
      "Content-Type:".data ++ (' ' :: ct) := by
  have hsplit3 : "\"\r\nContent-Type: ".data =
      "\"\r\n".data ++ ("Content-Type:".data ++ [' ']) := by
    decide
  have hgrp : hdrOf n f ct =
      ("Content-Disposition: form-data; name=\"".data ++ n ++ "\"; filename=\"".data ++
        f ++ "\"\r\n".data) ++ ("Content-Type:".data ++ (' ' :: ct)) := by
    rw [hdr_ra, hsplit3]
    simp
  have hlen : ("Content-Disposition: form-data; name=\"".data ++ n ++
      "\"; filename=\"".data ++ f ++ "\"\r\n".data).length = 54 + n.length + f.length := by
    simp only [List.length_append, List.length_cons, List.length_nil]
    try omega
  rw [hgrp, drop_concat (0) (by rw [hlen]; omega), List.drop_zero]

theorem hdr_drop67 (n f ct : List Char) :
    (hdrOf n f ct).drop (67 + n.length + f.length) = ' ' :: ct := by
  have hsplit3 : "\"\r\nContent-Type: ".data =
      "\"\r\nContent-Type:".data ++ [' '] := by
    decide
  have hgrp : hdrOf n f ct =
      ("Content-Disposition: form-data; name=\"".data ++ n ++ "\"; filename=\"".data ++
        f ++ "\"\r\nContent-Type:".data) ++ (' ' :: ct) := by
    rw [hdr_ra, hsplit3]
    simp
  have hlen : ("Content-Disposition: form-data; name=\"".data ++ n ++
      "\"; filename=\"".data ++ f ++ "\"\r\nContent-Type:".data).length =
      67 + n.length + f.length := by
    simp only [List.length_append, List.length_cons, List.length_nil]
    try omega
  rw [hgrp, drop_concat (0) (by rw [hlen]; omega), List.drop_zero]

theorem hdr_drop68 (n f ct : List Char) :
    (hdrOf n f ct).drop (68 + n.length + f.length) = ct := by
  rw [hdr_grpCT, drop_concat (0) (by rw [len_grpCT]; omega), List.drop_zero]

/-! ### The greedy runs of the header regexes -/

theorem run_semi20 (n f ct : List Char) : runNot ';' (hdrOf n f ct) 20 = 10 := by
  unfold runNot
  rw [hdr_drop20, List.takeWhile_append_of_pos (by decide)]
  simp [List.takeWhile_cons]

theorem run_semi31 (n f ct : List Char) (hn : ';' ∉ n) :
    runNot ';' (hdrOf n f ct) 31 = n.length + 8 := by
  unfold runNot
  rw [hdr_drop31, List.takeWhile_append_of_pos (by decide),
    List.takeWhile_append_of_pos (all_ne hn)]
  simp [List.takeWhile_cons]

theorem run_quote38 (n f ct : List Char) (hn : '"' ∉ n) :
    runNot '"' (hdrOf n f ct) 38 = n.length := by
  unfold runNot
  rw [hdr_drop38, List.takeWhile_append_of_pos (all_ne hn)]
  simp [List.takeWhile_cons]

theorem run_quote51 (n f ct : List Char) (hf : '"' ∉ f) :
    runNot '"' (hdrOf n f ct) (51 + n.length) = f.length := by
  unfold runNot
  rw [hdr_drop51, List.takeWhile_append_of_pos (all_ne hf)]
  simp [List.takeWhile_cons]

/-- If the content type is its own trim, it does not start with
whitespace. -/
theorem takeWhile_ws_nil_of_trim {ct : List Char} (htr : jsTrim ct = ct) :
    ct.takeWhile jsWs = [] := by
  have h1 : (jsTrim ct).length ≤ (ct.dropWhile jsWs).length := by
    unfold jsTrim
    rw [List.length_reverse]
    calc ((ct.dropWhile jsWs).reverse.dropWhile jsWs).length
        ≤ (ct.dropWhile jsWs).reverse.length :=
          (List.dropWhile_sublist jsWs).length_le
      _ = (ct.dropWhile jsWs).length := List.length_reverse _
  rw [htr] at h1
  have h2 := congrArg List.length
    (List.takeWhile_append_dropWhile jsWs ct)
  rw [List.length_append] at h2
  exact List.eq_nil_of_length_eq_zero (by omega)

theorem run_ws67 (n f ct : List Char) (htr : jsTrim ct = ct) :
    ((hdrOf n f ct).drop (67 + n.length + f.length)).takeWhile jsWs = [' '] := by
  rw [hdr_drop67, List.takeWhile_cons]
  rw [if_pos (by decide)]
  rw [takeWhile_ws_nil_of_trim htr]

theorem run_ct68 (n f ct : List Char) (hcr : '\r' ∉ ct) (hlf : '\n' ∉ ct) :
    ((hdrOf n f ct).drop (68 + n.length + f.length)).takeWhile
      (fun c => !(c = '\r' || c = '\n')) = ct := by
  rw [hdr_drop68]
  apply takeWhile_all
  intro a ha
  simp only [Bool.not_eq_true']
  simp only [Bool.or_eq_false_iff, decide_eq_false_iff_not]
  exact ⟨fun he => hcr (he ▸ ha), fun he => hlf (he ▸ ha)⟩

/-! ### The `Content-Disposition` name capture on the encoded header -/

/-- Going down from a failed stretch reaches the first success. -/
theorem nameBack_step (h : List Char) (lo : Nat) :
    ∀ dmax d0, d0 ≤ dmax →
      (∀ d, d0 < d → d ≤ dmax → nameTry h (lo + d) = none) →
      nameBack h lo dmax = nameBack h lo d0 := by
  intro dmax
  induction dmax with
  | zero =>
    intro d0 h0 _
    have : d0 = 0 := by omega
    rw [this]
  | succ dm ih =>
    intro d0 hd0 hfail
    by_cases he : d0 = dm + 1
    · rw [he]
    · have hlt : d0 ≤ dm := by omega
      have htop : nameTry h (lo + dm + 1) = none :=
        hfail (dm + 1) (by omega) (Nat.le_refl _)
      have hstep : nameBack h lo (dm + 1) = nameBack h lo dm := by
        conv_lhs => unfold nameBack
        rw [htop]
      rw [hstep]
      exact ih d0 hlt (fun d h1 h2 => hfail d h1 (by omega))

/-- The successful attempt: `name="` matches at offset 32 and captures
the field name. -/
theorem nameTry32 (n f ct : List Char) (hn1 : n ≠ []) (hn2 : '"' ∉ n) :
    nameTry (hdrOf n f ct) 32 = some n := by
  have hself : ciStarts "name=\"".data ((hdrOf n f ct).drop 32) := by
    rw [hdr_drop32]
    exact ciStarts_self_append _ _
  unfold nameTry
  rw [if_pos hself]
  norm_num
  rw [run_quote38 n f ct hn2]
  have hq : (hdrOf n f ct)[38 + n.length]? = some '"' := by
    have h0 : (hdrOf n f ct)[38 + n.length + 0]? = ("\"; filename=\"".data)[0]? :=
      hdrB n f ct (by omega)
    simpa using h0
  refine ⟨⟨List.length_pos.mpr hn1, hq⟩, ?_⟩
  unfold seg
  rw [hdr_drop38, Nat.add_sub_cancel_left, List.take_left]

/-- Every later attempt fails: there is no other `name="` before the
second `;`. -/
theorem nameTryFail (n f ct : List Char) (hn1 : n ≠ []) (hn2 : '"' ∉ n)
    (hn4 : '=' ∉ n) :
    ∀ k, 33 ≤ k → k ≤ 39 + n.length → nameTry (hdrOf n f ct) k = none := by
  intro k hk1 hk2
  have hn0 : 0 < n.length := List.length_pos.mpr hn1
  unfold nameTry
  rw [if_neg ?nci]
  case nci =>
    intro hci
    rcases Nat.lt_or_ge k (33 + n.length) with hcase | hcase
    · -- the quote at pattern offset 5 would have to sit inside `n`
      obtain ⟨c, p, hc, hp, he⟩ := ciStarts_getElem hci (5) (by norm_num)
      have hp5 : ("name=\"".data)[5]? = some '"' := by decide
      rw [hp5] at hp
      injection hp with hp
      subst hp
      have hcq : c = '"' := eq_of_toLower_eq_nonletter (by decide) (by
        rw [he]; decide)
      subst hcq
      rw [List.getElem?_drop] at hc
      have hrw : k + 5 = 38 + (k + 5 - 38) := by omega
      rw [hrw, hdrN n f ct (by omega)] at hc
      exact hn2 (List.getElem?_mem hc)
    rcases Nat.lt_or_ge k (34 + n.length) with hcase2 | hcase2
    · -- k = 33 + |n|: pattern offset 4 is `=`, sitting on the last
      -- character of `n`
      obtain ⟨c, p, hc, hp, he⟩ := ciStarts_getElem hci (4) (by norm_num)
      have hp4 : ("name=\"".data)[4]? = some '=' := by decide
      rw [hp4] at hp
      injection hp with hp
      subst hp
      have hcq : c = '=' := eq_of_toLower_eq_nonletter (by decide) (by
        rw [he]; decide)
      subst hcq
      rw [List.getElem?_drop] at hc
      have hrw : k + 4 = 38 + (n.length - 1) := by omega
      rw [hrw, hdrN n f ct (by omega)] at hc
      exact hn4 (List.getElem?_mem hc)
    · -- the `;` at header offset 39+|n| falls inside the 6-character
      -- window of the pattern
      have hsc : (hdrOf n f ct)[39 + n.length]? = some ';' := by
        have h1 : (hdrOf n f ct)[38 + n.length + 1]? =
            ("\"; filename=\"".data)[1]? := hdrB n f ct (by omega)
        rw [show 38 + n.length + 1 = 39 + n.length by omega] at h1
        rw [h1]
        decide
      obtain ⟨c, p, hc, hp, he⟩ :=
        ciStarts_getElem hci (39 + n.length - k) (by norm_num; omega)
      rw [List.getElem?_drop] at hc
      rw [show k + (39 + n.length - k) = 39 + n.length by omega, hsc] at hc
      injection hc with hc
      subst hc
      have hps : p = ';' := by
        have : p.toLower = ';' := by rw [← he]; decide
        exact eq_of_toLower_eq_nonletter (by decide) this
      subst hps
      have hmem : ';' ∈ "name=\"".data := List.getElem?_mem hp
      revert hmem
      decide

/-- The attempt of the name regex after the first `;` captures exactly
the encoded field name. -/
theorem cdAttempt_hdr (n f ct : List Char) (hn1 : n ≠ []) (hn2 : '"' ∉ n)
    (hn3 : ';' ∉ n) (hn4 : '=' ∉ n) :
    cdAttempt (hdrOf n f ct) 20 = some n := by
  unfold cdAttempt
  rw [run_semi20]
  norm_num
  have h30 : (hdrOf n f ct)[30]? = some ';' := by
    rw [hdrA n f ct (by omega)]
    decide
  refine ⟨h30, ?_⟩
  rw [run_semi31 n f ct hn3]
  have hback := nameBack_step (hdrOf n f ct) 31 (n.length + 8) 1 (by omega)
    (fun d h1 h2 => nameTryFail n f ct hn1 hn2 hn4 (31 + d) (by omega) (by omega))
  rw [hback]
  have h32 : nameTry (hdrOf n f ct) 32 = some n := nameTry32 n f ct hn1 hn2
  unfold nameBack
  rw [show (31:Nat) + 0 + 1 = 32 from rfl, h32]

/-- `headerSection.match(/Content-Disposition:[^;]*;[^;]*name="([^"]+)"/i)`
returns the encoded field name. -/
theorem cdScan_hdr (n f ct : List Char) (hn1 : n ≠ []) (hn2 : '"' ∉ n)
    (hn3 : ';' ∉ n) (hn4 : '=' ∉ n) :
    cdScan (hdrOf n f ct) = some n := by
  have hfind : ciFind (hdrOf n f ct) "Content-Disposition:".data 0 = some 0 := by
    apply ciFind_eq_some (Nat.le_refl 0) (Nat.zero_le _) ?hj (fun i h1 h2 => by omega)
    case hj =>
      rw [List.drop_zero]
      have hgrp : hdrOf n f ct = "Content-Disposition:".data ++
          (" form-data; name=\"".data ++ (n ++ ("\"; filename=\"".data ++
            (f ++ ("\"\r\nContent-Type: ".data ++ ct))))) := by
        have hsplit : "Content-Disposition: form-data; name=\"".data =
            "Content-Disposition:".data ++ " form-data; name=\"".data := by
          decide
        rw [hdr_ra, hsplit]
        simp
      rw [hgrp]
      exact ciStarts_self_append _ _
  have hatt := cdAttempt_hdr n f ct hn1 hn2 hn3 hn4
  unfold cdScan cdScanAux
  rw [hfind]
  simp only [Nat.zero_add, hatt]

/-! ### The filename and content-type captures on the encoded header -/

/-- `headerSection.match(/filename="([^"]+)"/i)` captures the encoded
filename. -/
theorem fnScan_hdr (n f ct : List Char) (hn1 : n ≠ []) (hn2 : '"' ∉ n)
    (hn4 : '=' ∉ n) (hf1 : f ≠ []) (hf2 : '"' ∉ f) :
    fnScan (hdrOf n f ct) = some f := by
  have hfind : ciFind (hdrOf n f ct) "filename=\"".data 0 =
      some (41 + n.length) := by
    apply ciFind_eq_some (Nat.zero_le _) (by rw [hdr_length]; omega) ?hj ?hnone
    case hj =>
      rw [hdr_drop41]
      exact ciStarts_self_append _ _
    case hnone =>
      intro i _ hi hci
      obtain ⟨c, p, hc, hp, he⟩ := ciStarts_getElem hci (9) (by norm_num)
      have hp9 : ("filename=\"".data)[9]? = some '"' := by decide
      rw [hp9] at hp
      injection hp with hp
      subst hp
      have hcq : c = '"' := eq_of_toLower_eq_nonletter (by decide) (by
        rw [he]; decide)
      subst hcq
      rw [List.getElem?_drop] at hc
      rcases hdr_quotes n f ct hn2 hf2 (i + 9) hc with h37 | h38n | h50 | h51 | h68
      · -- a match starting at 7 before the encoder quote would begin at
        -- the `t` of `Content-Disposition: form-data`
        obtain ⟨c0, p0, hc0, hp0, he0⟩ := ciStarts_getElem hci (0) (by norm_num)
        have hp00 : ("filename=\"".data)[0]? = some 'f' := by decide
        rw [hp00] at hp0
        injection hp0 with hp0
        subst hp0
        rw [List.getElem?_drop] at hc0
        rw [show i + 0 = 28 by omega, hdrA n f ct (by omega)] at hc0
        have hD : ("Content-Disposition: form-data; name=\"".data)[28]? =
            some 't' := by decide
        rw [hD] at hc0
        injection hc0 with hc0
        rw [← hc0] at he0
        exact absurd he0 (by decide)
      · -- a match ending on the name-closing quote would put its `=` on
        -- the last character of the field name
        obtain ⟨c8, p8, hc8, hp8, he8⟩ := ciStarts_getElem hci (8) (by norm_num)
        have hp88 : ("filename=\"".data)[8]? = some '=' := by decide
        rw [hp88] at hp8
        injection hp8 with hp8
        subst hp8
        have hcq8 : c8 = '=' := eq_of_toLower_eq_nonletter (by decide) (by
          rw [he8]; decide)
        subst hcq8
        rw [List.getElem?_drop] at hc8
        have hn0 : 0 < n.length := List.length_pos.mpr hn1
        rw [show i + 8 = 38 + (n.length - 1) by omega,
          hdrN n f ct (by omega)] at hc8
        exact hn4 (List.getElem?_mem hc8)
      · omega
      · omega
      · omega
  unfold fnScan fnScanAux
  simp only [hfind]
  rw [show 41 + n.length + 10 = 51 + n.length from by omega,
    run_quote51 n f ct hf2]
  have hq : (hdrOf n f ct)[51 + n.length + f.length]? = some '"' := by
    have h0 : (hdrOf n f ct)[51 + n.length + f.length + 0]? =
        ("\"\r\nContent-Type: ".data)[0]? := hdrL n f ct (by omega)
    simpa using h0
  rw [if_pos ⟨List.length_pos.mpr hf1, hq⟩]
  unfold seg
  rw [show 51 + n.length + f.length - (51 + n.length) = f.length from by omega,
    hdr_drop51, List.take_left]

/-- One position of the content-type tail: at the start of the encoded
content type the greedy `[^\r\n]+` takes exactly the content type. -/
theorem ctTryAt_hdr (n f ct : List Char) (hct1 : ct ≠ []) (hct2 : '\r' ∉ ct)
    (hct3 : '\n' ∉ ct) :
    ctTryAt (hdrOf n f ct) (68 + n.length + f.length) = some ct := by
  unfold ctTryAt
  rw [run_ct68 n f ct hct2 hct3]
  show (if 1 ≤ ct.length then
      some (seg (hdrOf n f ct) (68 + n.length + f.length)
        (68 + n.length + f.length + ct.length))
    else none) = some ct
  rw [if_pos (show 1 ≤ ct.length from List.length_pos.mpr hct1)]
  unfold seg
  rw [show 68 + n.length + f.length + ct.length - (68 + n.length + f.length) =
    ct.length from by omega, hdr_drop68, List.take_length]

/-- `headerSection.match(/Content-Type:\s*([^\r\n]+)/i)` captures the
encoded content type (whose own trim equals itself). -/
theorem ctScan_hdr (n f ct : List Char) (hn5 : ':' ∉ n) (hf3 : ':' ∉ f)
    (hct1 : ct ≠ []) (hct2 : '\r' ∉ ct) (hct3 : '\n' ∉ ct)
    (hct4 : jsTrim ct = ct) :
    ctScan (hdrOf n f ct) = some ct := by
  have hfind : ciFind (hdrOf n f ct) "Content-Type:".data 0 =
      some (54 + n.length + f.length) := by
    apply ciFind_eq_some (Nat.zero_le _) (by rw [hdr_length]; omega) ?hj ?hnone
    case hj =>
      rw [hdr_drop54]
      exact ciStarts_self_append _ _
    case hnone =>
      intro i _ hi hci
      obtain ⟨c, p, hc, hp, he⟩ := ciStarts_getElem hci (12) (by norm_num)
      have hp12 : ("Content-Type:".data)[12]? = some ':' := by decide
      rw [hp12] at hp
      injection hp with hp
      subst hp
      have hcq : c = ':' := eq_of_toLower_eq_nonletter (by decide) (by
        rw [he]; decide)
      subst hcq
      rw [List.getElem?_drop] at hc
      rcases hdr_colons n f ct hn5 hf3 (i + 12) hc with h19 | h66 | h68
      · -- the colon of `Content-Disposition:`: the window would begin on
        -- the `-` of `Content-`
        obtain ⟨c0, p0, hc0, hp0, he0⟩ := ciStarts_getElem hci (0) (by norm_num)
        have hp00 : ("Content-Type:".data)[0]? = some 'C' := by decide
        rw [hp00] at hp0
        injection hp0 with hp0
        subst hp0
        rw [List.getElem?_drop] at hc0
        rw [show i + 0 = 7 by omega, hdrA n f ct (by omega)] at hc0
        have hD : ("Content-Disposition: form-data; name=\"".data)[7]? =
            some '-' := by decide
        rw [hD] at hc0
        injection hc0 with hc0
        rw [← hc0] at he0
        exact absurd he0 (by decide)
      · omega
      · omega
  unfold ctScan ctScanAux
  simp only [hfind]
  rw [show 54 + n.length + f.length + 13 = 67 + n.length + f.length from by omega,
    run_ws67 n f ct hct4]
  have hAt : ctTryAt (hdrOf n f ct) (67 + n.length + f.length + 0 + 1) =
      some ct := by
    rw [show 67 + n.length + f.length + 0 + 1 = 68 + n.length + f.length
      from by omega]
    exact ctTryAt_hdr n f ct hct1 hct2 hct3
  have htry : ctTry (hdrOf n f ct) (67 + n.length + f.length) 1 = some ct := by
    conv_lhs => unfold ctTry
    rw [hAt]
  rw [show ([' '] : List Char).length = 1 from rfl]
  simp only [htry]

/-! ### Boundary extraction, header split and content clean-up on the
encoded request -/

/-- `getBoundary` on a `multipart/form-data; boundary=<bd>` header
returns the boundary token (the unquoted alternative of the regex). -/
theorem getBoundary_req (bd : List Char) (hbd : bd ≠ []) (hbs : ';' ∉ bd)
    (hbq : '"' ∉ bd) :
    getBoundary ("multipart/form-data; boundary=".data ++ bd) = some bd := by
  have hlit : ("multipart/form-data; boundary=".data).length = 30 := by decide
  have hfind : ciFind ("multipart/form-data; boundary=".data ++ bd)
      "boundary=".data 0 = some 21 := by
    apply ciFind_eq_some (Nat.zero_le _)
      (by rw [List.length_append, hlit]; omega) ?hj ?hnone
    case hj =>
      have hgrp : "multipart/form-data; boundary=".data ++ bd =
          "multipart/form-data; ".data ++ ("boundary=".data ++ bd) := by
        have hsp : "multipart/form-data; boundary=".data =
            "multipart/form-data; ".data ++ "boundary=".data := by decide
        rw [hsp, List.append_assoc]
      rw [hgrp, drop_concat (0) (by decide), List.drop_zero]
      exact ciStarts_self_append _ _
    case hnone =>
      intro i _ hi hci
      obtain ⟨c, p, hc, hp, he⟩ := ciStarts_getElem hci (8) (by norm_num)
      have hp8 : ("boundary=".data)[8]? = some '=' := by decide
      rw [hp8] at hp
      injection hp with hp
      subst hp
      have hcq : c = '=' := eq_of_toLower_eq_nonletter (by decide) (by
        rw [he]; decide)
      subst hcq
      rw [List.getElem?_drop] at hc
      rw [List.getElem?_append_left (show i + 8 <
        ("multipart/form-data; boundary=".data).length from by
          rw [hlit]; omega)] at hc
      have hno : ∀ j, j < 29 →
          ("multipart/form-data; boundary=".data)[j]? ≠ some '=' := by decide
      exact hno (i + 8) (by omega) hc
  have h30 : ("multipart/form-data; boundary=".data ++ bd)[30]? = bd[0]? :=
    getElem?_concat (0) (by rw [hlit])
  have hq0 : ¬ (("multipart/form-data; boundary=".data ++ bd)[30]? = some '"') := by
    rw [h30]
    intro h
    exact hbq (List.getElem?_mem h)
  have hrun : runNot ';' ("multipart/form-data; boundary=".data ++ bd) 30 =
      bd.length := by
    unfold runNot
    rw [drop_concat (0) (by rw [hlit]), List.drop_zero,
      takeWhile_all (all_ne hbs)]
  unfold getBoundary getBoundaryAux
  simp only [hfind]
  rw [show (21 : Nat) + 9 = 30 from by norm_num]
  rw [if_neg hq0, hrun,
    if_pos (show 1 ≤ bd.length from List.length_pos.mpr hbd)]
  show some (seg ("multipart/form-data; boundary=".data ++ bd) 30
    (30 + bd.length)) = some bd
  unfold seg
  rw [show 30 + bd.length - 30 = bd.length from by omega,
    drop_concat (0) (by rw [hlit]), List.drop_zero, List.take_length]

/-- `part.indexOf('\r\n\r\n')` on an encoded part finds the end of the
header block. -/
theorem headerEnd (n f ct B : List Char) (hn6 : '\r' ∉ n) (hf4 : '\r' ∉ f)
    (hct2 : '\r' ∉ ct) :
    indexOfFrom (encodePart n f ct B) "\r\n\r\n".data 0 =
      some (68 + n.length + f.length + ct.length) := by
  have hassoc : encodePart n f ct B =
      hdrOf n f ct ++ ("\r\n\r\n".data ++ B) := by
    unfold encodePart
    rw [List.append_assoc]
  have h4 : ("\r\n\r\n".data).length = 4 := by decide
  apply indexOfFrom_eq_some (Nat.zero_le _) ?hocc ?hfit ?hnone
  case hocc =>
    rw [hassoc, ← hdr_length n f ct,
      show (hdrOf n f ct).length = (hdrOf n f ct).length + 0 from by omega]
    exact occursAt_append_add.mpr (occursAt_start _ _)
  case hfit =>
    unfold encodePart
    simp only [List.length_append, hdr_length, h4]
    omega
  case hnone =>
    intro i _ hi hocc
    have hc0 := occursAt_getElem hocc (0) (by norm_num)
    have hp0 : ("\r\n\r\n".data)[0]? = some '\r' := by decide
    rw [show i + 0 = i from by omega, hp0, hassoc,
      List.getElem?_append_left (show i < (hdrOf n f ct).length from by
        rw [hdr_length]; omega)] at hc0
    have h0 := hdr_crs n f ct hn6 hf4 hct2 i hc0
    have hc2 := occursAt_getElem hocc (2) (by norm_num)
    have hp2 : ("\r\n\r\n".data)[2]? = some '\r' := by decide
    rw [hp2, hassoc,
      List.getElem?_append_left (show i + 2 < (hdrOf n f ct).length from by
        rw [hdr_length]; omega)] at hc2
    have h2 := hdr_crs n f ct hn6 hf4 hct2 (i + 2) hc2
    omega

/-- When the boundary does not occur in the content and the content does
not end in `\r\n`, the clean-up of lines 378-390 is the identity. -/
theorem cleanContent_id (bb B : List Char) (hno : ∀ i, ¬ occursAt bb B i)
    (htl : ∀ C, B ≠ C ++ '\r' :: '\n' :: []) :
    cleanContent bb B = B := by
  unfold cleanContent
  rw [lastIndexOfList_eq_none hno]
  show (if 2 ≤ B.length ∧ B[B.length - 2]? = some '\r' ∧
      B[B.length - 1]? = some '\n' then B.take (B.length - 2) else B) = B
  rw [if_neg ?hc]
  case hc =>
    rintro ⟨hlen, hr, hn⟩
    refine htl (B.take (B.length - 2)) ?_
    have hdd : B.drop (B.length - 2) = ['\r', '\n'] := by
      apply List.ext_getElem?
      intro j
      rw [List.getElem?_drop]
      rcases j with _ | (_ | j)
      · rw [show B.length - 2 + 0 = B.length - 2 from by omega, hr]
        rfl
      · rw [show B.length - 2 + 1 = B.length - 1 from by omega, hn]
        rfl
      · rw [List.getElem?_eq_none (by omega)]
        rfl
    conv_lhs => rw [← List.take_append_drop (B.length - 2) B]
    rw [hdd]

/-- The part loop on an encoded part at the head of the list returns its
filename, (trimmed) content type and content. -/
theorem findFilePart_encode (bd n f ct B : List Char) (rest : List (List Char))
    (hn1 : n ≠ []) (hn2 : '"' ∉ n) (hn3 : ';' ∉ n) (hn4 : '=' ∉ n)
    (hn5 : ':' ∉ n) (hn6 : '\r' ∉ n)
    (hf1 : f ≠ []) (hf2 : '"' ∉ f) (hf3 : ':' ∉ f) (hf4 : '\r' ∉ f)
    (hct1 : ct ≠ []) (hct2 : '\r' ∉ ct) (hct3 : '\n' ∉ ct)
    (hct4 : jsTrim ct = ct)
    (hname : n = "image".data ∨ n = "file".data)
    (hno : ∀ i, ¬ occursAt ('-' :: '-' :: bd) B i)
    (htl : ∀ C, B ≠ C ++ '\r' :: '\n' :: []) :
    findFilePart ('-' :: '-' :: bd) (encodePart n f ct B :: rest) =
      some ⟨f, ct, B⟩ := by
  have h4 : ("\r\n\r\n".data).length = 4 := by decide
  have htake : (encodePart n f ct B).take (68 + n.length + f.length + ct.length) =
      hdrOf n f ct := by
    unfold encodePart
    rw [List.append_assoc, take_concat_left (by rw [hdr_length])]
  have hdropc : (encodePart n f ct B).drop
      (68 + n.length + f.length + ct.length + 4) = B := by
    unfold encodePart
    rw [drop_concat (0) (by
      simp only [List.length_append, hdr_length, h4]), List.drop_zero]
  have hcd := cdScan_hdr n f ct hn1 hn2 hn3 hn4
  have hfn := fnScan_hdr n f ct hn1 hn2 hn4 hf1 hf2
  have hctS := ctScan_hdr n f ct hn5 hf3 hct1 hct2 hct3 hct4
  have hcc := cleanContent_id ('-' :: '-' :: bd) B hno htl
  unfold findFilePart
  rw [headerEnd n f ct B hn6 hf4 hct2]
  simp only [htake, hdropc, hcd, hfn, hctS, hcc, hct4]
  rw [if_pos hname]

/-- If the label does not occur (case-insensitively), the labelled
capture fails. -/
theorem labelCap_eq_none (s label : List Char) (look : Option (List Char))
    (h : ciFind s label 0 = none) : labelCap s label look = none := by
  simp [labelCap, labelCapAux, h]

theorem ciFind_eq_none_of_containsCI_false {s pat : List Char}
    (h : containsCI s pat = false) : ciFind s pat 0 = none := by
  cases hc : ciFind s pat 0 with
  | none => rfl
  | some v => unfold containsCI at h; rw [hc] at h; simp at h

/-! ## Claims -/

/-- **C7.** For the input string
`"DESCRIPTION: A dog.\nKEYWORDS: [dog, pet, brown, animal, cute]\nDETECTED_TEXT: No text detected"`,
the model-response extractor returns exactly description `"A dog."`,
keywords `["dog","pet","brown","animal","cute"]`, and detected text `[]`. -/
theorem claim_C7 :
    parseBedrockResponse
      "DESCRIPTION: A dog.\nKEYWORDS: [dog, pet, brown, animal, cute]\nDETECTED_TEXT: No text detected".data =
    ⟨"A dog.".data,
      ["dog".data, "pet".data, "brown".data, "animal".data, "cute".data], []⟩ := by
  decide

/-- **C9.** For every input string, the keyword list returned by the
model-response extractor has between 1 and 5 entries: parsed lists are
truncated to 5, and an empty parse is replaced by the fixed 5-entry
placeholder list. -/
theorem claim_C9 (s : List Char) :
    1 ≤ (parseBedrockResponse s).keywords.length ∧
      (parseBedrockResponse s).keywords.length ≤ 5 := by
  unfold parseBedrockResponse
  cases h : labelCap s "KEYWORDS:".data (some "\nDETECTED_TEXT:".data) with
  | none => simp [placeholderKeywords]
  | some c =>
    simp only
    set ks := ((((splitComma (stripBrackets (jsTrim c))).map jsTrim).filter
      (fun k => k.length > 0)).take 5) with hks
    by_cases hnil : ks = []
    · simp [hnil, placeholderKeywords]
    · have h5 : ks.length ≤ 5 := by
        rw [hks]
        exact le_trans (List.length_take_le 5 _) (le_refl 5)
      have h1 : 1 ≤ ks.length := List.length_pos.mpr hnil
      simp only [if_neg hnil]
      exact ⟨h1, h5⟩

/-- **C5, counterexample.** The claim states that completely unparseable
garbage yields the generic placeholder description and the 2-entry
placeholder keyword list (the `catch` branch of the source).  On the
garbage input `"complete garbage @@@ nothing here"` the extractor instead
returns the input itself as description and the 5-entry placeholder
list: the `catch` branch is unreachable for string inputs. -/
theorem claim_C5_counterexample :
    (parseBedrockResponse "complete garbage @@@ nothing here".data).keywords ≠
        ["image".data, "content".data] ∧
      (parseBedrockResponse "complete garbage @@@ nothing here".data).description ≠
        "Analysis completed but response parsing failed".data := by
  decide

/-- **C5, amended.** For every input string the extractor returns a
`{description, keywords, detectedText}` triple and cannot throw (it is a
total function of the input); for garbage input containing none of the
three labels it returns the first 300 characters of the input as
description, the fixed **5-entry** placeholder keyword list, and an empty
detected-text list. -/
theorem claim_C5 (s : List Char)
    (h1 : containsCI s "DESCRIPTION:".data = false)
    (h2 : containsCI s "KEYWORDS:".data = false)
    (h3 : containsCI s "DETECTED_TEXT:".data = false) :
    parseBedrockResponse s = ⟨s.take 300, placeholderKeywords, []⟩ := by
  have e1 := labelCap_eq_none s "DESCRIPTION:".data (some "\nKEYWORDS:".data)
    (ciFind_eq_none_of_containsCI_false h1)
  have e2 := labelCap_eq_none s "KEYWORDS:".data (some "\nDETECTED_TEXT:".data)
    (ciFind_eq_none_of_containsCI_false h2)
  have e3 := labelCap_eq_none s "DETECTED_TEXT:".data none
    (ciFind_eq_none_of_containsCI_false h3)
  unfold parseBedrockResponse
  rw [e1, e2, e3]
  rfl

/-- Witness for C5 at the garbage input of the counterexample. -/
theorem claim_C5_witness :
    parseBedrockResponse "complete garbage @@@ nothing here".data =
      ⟨"complete garbage @@@ nothing here".data.take 300, placeholderKeywords, []⟩ :=
  claim_C5 _ (by decide) (by decide) (by decide)

/-- **C4.** The claim states that the 201 upload response's data object
contains a `userId` field set to the caller's owner identifier.  The
`UploadResponseData` interface of types/index.ts does require `userId`,
but the upload handler revision under src/ builds its `responseData`
without it (and never reads the request claims), contradicting its own
type annotation: the success data carries exactly the seven fields of
`uploadDataJsonFields`. -/
theorem claim_C4 :
    "userId" ∈ uploadResponseDataRequiredFields ∧
      "userId" ∉ uploadDataJsonFields ∧
      uploadDataJsonFields =
        ["id", "filename", "originalName", "mimetype", "size", "uploadedAt", "path"] := by
  decide

/-- **C6.** Every upload request whose extracted file has a content type
outside the four-type allow-list or a byte length exceeding the 10 MiB
ceiling is answered with 400 and performs no writes: no S3 put, no
DynamoDB put, no SQS send. -/
theorem claim_C6 (ev : MpEvent) (imageId now corrId : List Char) (fd : FormData)
    (hp : parseMultipartFormData ev = some fd)
    (hbad : fd.contentType ∉ allowedMimeTypes ∨ MAX_FILE_SIZE < fd.content.length) :
    ((uploadHandler ev imageId now corrId).1).statusCode = 400 ∧
      (uploadHandler ev imageId now corrId).2 = [] := by
  have hh : uploadHandler ev imageId now corrId = uploadHandlerCore fd imageId now corrId := by
    unfold uploadHandler
    rw [hp]
  rw [hh]
  unfold uploadHandlerCore
  rcases hbad with hct | hsz
  · rw [if_pos hct]
    exact ⟨rfl, rfl⟩
  · by_cases hct : fd.contentType ∉ allowedMimeTypes
    · rw [if_pos hct]
      exact ⟨rfl, rfl⟩
    · rw [if_neg hct, if_pos hsz]
      exact ⟨rfl, rfl⟩

/-- Witness for C6: a well-formed multipart upload of a `text/plain`
file is parsed, rejected with 400, and causes no writes. -/
theorem claim_C6_witness :
    ((uploadHandler
        (mkRequest "b".data [encodePart "image".data "t.txt".data "text/plain".data "hi".data])
        "ID1".data "NOW".data "CID".data).1).statusCode = 400 ∧
      (uploadHandler
        (mkRequest "b".data [encodePart "image".data "t.txt".data "text/plain".data "hi".data])
        "ID1".data "NOW".data "CID".data).2 = [] :=
  claim_C6 _ _ _ _ ⟨"t.txt".data, "text/plain".data, "hi".data⟩ (by decide)
    (Or.inl (by decide))

/-- **C10.** A file whose extracted content is exactly
`10485760 = 10 * 1024 * 1024 = MAX_FILE_SIZE` bytes passes the upload
handler's size validation (the source checks
`content.length > MAX_FILE_SIZE`): with an allowed content type the
handler answers 201, and it answers 400 exactly for content strictly
larger than `MAX_FILE_SIZE`. -/
theorem claim_C10 (fd : FormData) (imageId now corrId : List Char)
    (hct : fd.contentType ∈ allowedMimeTypes) :
    (fd.content.length = MAX_FILE_SIZE →
      ((uploadHandlerCore fd imageId now corrId).1).statusCode = 201) ∧
    (((uploadHandlerCore fd imageId now corrId).1).statusCode = 400 ↔
      MAX_FILE_SIZE < fd.content.length) := by
  unfold uploadHandlerCore
  rw [if_neg (by simpa using hct)]
  by_cases hsz : MAX_FILE_SIZE < fd.content.length
  · rw [if_pos hsz]
    exact ⟨fun he => by omega, by simp [UploadResp.statusCode, hsz]⟩
  · rw [if_neg hsz]
    exact ⟨fun _ => rfl, by simp [UploadResp.statusCode, hsz]⟩

theorem maxSizeFd_ct : maxSizeFd.contentType ∈ allowedMimeTypes := by
  show "image/jpeg".data ∈ allowedMimeTypes
  decide

theorem maxSizeFd_len : maxSizeFd.content.length = MAX_FILE_SIZE := by
  show (List.replicate 10485760 'x').length = MAX_FILE_SIZE
  rw [List.length_replicate]
  rfl

/-- Witness for C10: a 10485760-byte `image/jpeg` file is accepted with
201. -/
theorem claim_C10_witness :
    ((uploadHandlerCore maxSizeFd "ID1".data "NOW".data "CID".data).1).statusCode = 201 :=
  (claim_C10 maxSizeFd "ID1".data "NOW".data "CID".data maxSizeFd_ct).1 maxSizeFd_len

/-- **C1.** For `GET /api/images` and `GET /api/analysis`, every record
returned to a non-admin caller has `userId` equal to the caller's subject
identifier from the trusted request claims; admin callers bypass the
filter and receive the whole table.  (Modelled from the spec, see
`listImagesFor`.) -/
theorem claim_C1 (c : JwtCaller) (imgs : List ImageRecordS) (anas : List AnalysisRecordS) :
    (c.isAdmin = false →
      (∀ r ∈ listImagesFor c imgs, r.userId = c.sub) ∧
      (∀ a ∈ listAnalysisFor c anas, a.userId = c.sub)) ∧
    (c.isAdmin = true →
      listImagesFor c imgs = imgs ∧ listAnalysisFor c anas = anas) := by
  constructor
  · intro h
    constructor
    · intro r hr
      unfold listImagesFor at hr
      rw [h] at hr
      simp only [Bool.false_eq_true, if_false, List.mem_filter, beq_iff_eq] at hr
      exact hr.2
    · intro a ha
      unfold listAnalysisFor at ha
      rw [h] at ha
      simp only [Bool.false_eq_true, if_false, List.mem_filter, beq_iff_eq] at ha
      exact ha.2
  · intro h
    unfold listImagesFor listAnalysisFor
    rw [h]
    exact ⟨if_pos rfl, if_pos rfl⟩

/-- Witness for C1: a non-admin caller's filtered record is their own,
and an admin caller receives a foreign record unfiltered. -/
theorem claim_C1_witness :
    (⟨"i1", "u1", "k1"⟩ : ImageRecordS).userId = "u1" ∧
      listImagesFor ⟨"adm", true⟩ [⟨"i1", "u1", "k1"⟩] = [⟨"i1", "u1", "k1"⟩] := by
  constructor
  · exact ((claim_C1 ⟨"u1", false⟩ [⟨"i1", "u1", "k1"⟩] []).1 rfl).1
      ⟨"i1", "u1", "k1"⟩ (by decide)
  · exact ((claim_C1 ⟨"adm", true⟩ [⟨"i1", "u1", "k1"⟩] []).2 rfl).1

/-- **C2.** For every `DELETE /api/images/{id}` request for an existing
image by an authorized caller, the delete operation removes the stored
object, the image metadata record and the analysis record with the same
identifier together, answering 200.  (Modelled from the spec, see
`deleteImageOp`.) -/
theorem claim_C2 (c : JwtCaller) (st : QueryStore) (id : String) (img : ImageRecordS)
    (h1 : st.images id = some img)
    (h2 : c.isAdmin = true ∨ img.userId = c.sub) :
    (deleteImageOp c st id).2 = 200 ∧
      ((deleteImageOp c st id).1).images id = none ∧
      ((deleteImageOp c st id).1).analysis id = none ∧
      ((deleteImageOp c st id).1).s3 img.s3Key = none := by
  unfold deleteImageOp
  rw [h1]
  dsimp only
  rw [if_pos h2]
  refine ⟨rfl, ?_, ?_, ?_⟩ <;> simp

/-- Witness for C2: the owner deletes image `i1`; the image record, the
analysis record and the stored object are all gone. -/
theorem claim_C2_witness :
    (deleteImageOp ⟨"u1", false⟩ witnessStore "i1").2 = 200 ∧
      ((deleteImageOp ⟨"u1", false⟩ witnessStore "i1").1).images "i1" = none ∧
      ((deleteImageOp ⟨"u1", false⟩ witnessStore "i1").1).analysis "i1" = none ∧
      ((deleteImageOp ⟨"u1", false⟩ witnessStore "i1").1).s3 "k1" = none :=
  claim_C2 ⟨"u1", false⟩ witnessStore "i1" ⟨"i1", "u1", "k1"⟩ (by simp [witnessStore])
    (Or.inr rfl)

/-- If the boundary delimiter occurs nowhere in the part's region before
its closing delimiter, it occurs nowhere in the part's content. -/
theorem noOcc_content (bd n f ct B : List Char)
    (hNE : noEarlyOcc bd (encodePart n f ct B)) :
    ∀ i, ¬ occursAt ('-' :: '-' :: bd) B i := by
  unfold noEarlyOcc at hNE
  intro i hocc
  have h4 : ("\r\n\r\n".data).length = 4 := by decide
  have hfit := occursAt_length hocc (by simp)
  simp only [List.length_cons] at hfit
  have hocc2 : occursAt ('-' :: '-' :: bd)
      (B ++ ('\r' :: '\n' :: '-' :: '-' :: bd)) i :=
    occursAt_append_left_ext _ hocc (by
      simp only [List.length_cons]
      omega)
  have hreg : regionOf bd (encodePart n f ct B) =
      ('\r' :: '\n' :: (hdrOf n f ct ++ "\r\n\r\n".data)) ++
        (B ++ ('\r' :: '\n' :: '-' :: '-' :: bd)) := by
    unfold regionOf encodePart
    simp [List.append_assoc]
  exact hNE (('\r' :: '\n' :: (hdrOf n f ct ++ "\r\n\r\n".data)).length + i)
    (by
      unfold encodePart
      simp only [List.length_cons, List.length_append, hdr_length, h4]
      omega)
    (by rw [hreg]; exact occursAt_append_add.mpr hocc2)

/-- An encoded part is nonempty. -/
theorem encodePart_ne_nil (n f ct B : List Char) : encodePart n f ct B ≠ [] := by
  intro h
  have hlen := congrArg List.length h
  rw [List.length_nil] at hlen
  unfold encodePart at hlen
  simp only [List.length_append, hdr_length] at hlen
  omega

/-- An encoded body is nonempty. -/
theorem encodeBody_ne_nil (bd : List Char) (ps : List (List Char)) :
    encodeBody bd ps ≠ [] := by
  unfold encodeBody
  simp

/-- C3 (corrected): the multipart round-trip property of spec §8 holds
only for content that does not end in `\r\n`.  Encoding bytes `B` as a
well-formed part named `image` or `file` — boundary without `;`, `"`;
quote-, colon- and CR-free nonempty filename; trimmed CRLF-free nonempty
content type; the `--boundary` delimiter not occurring early in the
part's region (RFC 2046 §5.1.1); and `B` not ending in `\r\n` — and then
running the extractor on the resulting request returns the filename, the
content type and content byte-for-byte equal to `B`.  (For `B` ending in
`\r\n` the extractor strips that final `\r\n`: see the counterexample.) -/
theorem claim_C3 (bd n f ct B : List Char)
    (hbd : bd ≠ []) (hbs : ';' ∉ bd) (hbq : '"' ∉ bd)
    (hname : n = "image".data ∨ n = "file".data)
    (hf1 : f ≠ []) (hf2 : '"' ∉ f) (hf3 : ':' ∉ f) (hf4 : '\r' ∉ f)
    (hct1 : ct ≠ []) (hct2 : '\r' ∉ ct) (hct3 : '\n' ∉ ct)
    (hct4 : jsTrim ct = ct)
    (hNE : noEarlyOcc bd (encodePart n f ct B))
    (htl : ∀ C, B ≠ C ++ '\r' :: '\n' :: []) :
    parseMultipartFormData (mkRequest bd [encodePart n f ct B]) =
      some ⟨f, ct, B⟩ := by
  have hn1 : n ≠ [] := by rcases hname with rfl | rfl <;> decide
  have hn2 : '"' ∉ n := by rcases hname with rfl | rfl <;> decide
  have hn3 : ';' ∉ n := by rcases hname with rfl | rfl <;> decide
  have hn4 : '=' ∉ n := by rcases hname with rfl | rfl <;> decide
  have hn5 : ':' ∉ n := by rcases hname with rfl | rfl <;> decide
  have hn6 : '\r' ∉ n := by rcases hname with rfl | rfl <;> decide
  have hno := noOcc_content bd n f ct B hNE
  have hne := encodeBody_ne_nil bd [encodePart n f ct B]
  have hgb := getBoundary_req bd hbd hbs hbq
  have hsb := splitByBoundary_encode bd hbd [encodePart n f ct B] (by
    intro p hp
    rw [List.mem_singleton] at hp
    subst hp
    exact ⟨encodePart_ne_nil n f ct B, hNE⟩)
  have hff := findFilePart_encode bd n f ct B [] hn1 hn2 hn3 hn4 hn5 hn6
    hf1 hf2 hf3 hf4 hct1 hct2 hct3 hct4 hname hno htl
  unfold parseMultipartFormData mkRequest
  simp only [if_neg hne, hgb, hsb, hff]

/-- Counterexample to the literal C3 (byte-for-byte for *every* byte
string): for content ending in `\r\n` the extractor returns the content
with that final `\r\n` stripped. -/
theorem claim_C3_counterexample :
    parseMultipartFormData (mkRequest "XYZ".data
        [encodePart "image".data "a.jpg".data "image/jpeg".data "ab\r\n".data]) =
      some ⟨"a.jpg".data, "image/jpeg".data, "ab".data⟩ ∧
    ("ab".data : List Char) ≠ "ab\r\n".data := by
  constructor
  · decide
  · decide

/-- Witness for C3 at a concrete input: boundary `XYZ`, field `image`,
filename `a.jpg`, type `image/jpeg`, content `ab`. -/
theorem claim_C3_witness :
    parseMultipartFormData (mkRequest "XYZ".data
        [encodePart "image".data "a.jpg".data "image/jpeg".data "ab".data]) =
      some ⟨"a.jpg".data, "image/jpeg".data, "ab".data⟩ :=
  claim_C3 "XYZ".data "image".data "a.jpg".data "image/jpeg".data "ab".data
    (by decide) (by decide) (by decide) (Or.inl rfl)
    (by decide) (by decide) (by decide) (by decide)
    (by decide) (by decide) (by decide) (by decide)
    (by unfold noEarlyOcc; decide)
    (by
      intro C h
      have hlen := congrArg List.length h
      have h2 : ("ab".data).length = 2 := by decide
      rw [h2, List.length_append, List.length_cons, List.length_cons,
        List.length_nil] at hlen
      have hC : C = [] := List.eq_nil_of_length_eq_zero (by omega)
      rw [hC, List.nil_append] at h
      exact absurd h (by decide))

/-- C8: when the body holds two file-bearing parts — each named `image`
or `file` with a nonempty filename — the extractor returns the filename,
content type and content of the first part in body order; the second
part does not affect the result. -/
theorem claim_C8 (bd n1 f1 ct1 B1 n2 f2 ct2 B2 : List Char)
    (hbd : bd ≠ []) (hbs : ';' ∉ bd) (hbq : '"' ∉ bd)
    (hname1 : n1 = "image".data ∨ n1 = "file".data)
    (hf11 : f1 ≠ []) (hf12 : '"' ∉ f1) (hf13 : ':' ∉ f1) (hf14 : '\r' ∉ f1)
    (hct11 : ct1 ≠ []) (hct12 : '\r' ∉ ct1) (hct13 : '\n' ∉ ct1)
    (hct14 : jsTrim ct1 = ct1)
    (hNE1 : noEarlyOcc bd (encodePart n1 f1 ct1 B1))
    (htl1 : ∀ C, B1 ≠ C ++ '\r' :: '\n' :: [])
    (hname2 : n2 = "image".data ∨ n2 = "file".data) (hf21 : f2 ≠ [])
    (hNE2 : noEarlyOcc bd (encodePart n2 f2 ct2 B2)) :
    parseMultipartFormData (mkRequest bd
        [encodePart n1 f1 ct1 B1, encodePart n2 f2 ct2 B2]) =
      some ⟨f1, ct1, B1⟩ := by
  have hn1 : n1 ≠ [] := by rcases hname1 with rfl | rfl <;> decide
  have hn2 : '"' ∉ n1 := by rcases hname1 with rfl | rfl <;> decide
  have hn3 : ';' ∉ n1 := by rcases hname1 with rfl | rfl <;> decide
  have hn4 : '=' ∉ n1 := by rcases hname1 with rfl | rfl <;> decide
  have hn5 : ':' ∉ n1 := by rcases hname1 with rfl | rfl <;> decide
  have hn6 : '\r' ∉ n1 := by rcases hname1 with rfl | rfl <;> decide
  have hno := noOcc_content bd n1 f1 ct1 B1 hNE1
  have hne := encodeBody_ne_nil bd
    [encodePart n1 f1 ct1 B1, encodePart n2 f2 ct2 B2]
  have hgb := getBoundary_req bd hbd hbs hbq
  have hsb := splitByBoundary_encode bd hbd
    [encodePart n1 f1 ct1 B1, encodePart n2 f2 ct2 B2] (by
      intro p hp
      rcases List.mem_cons.mp hp with rfl | hp2
      · exact ⟨encodePart_ne_nil n1 f1 ct1 B1, hNE1⟩
      · rw [List.mem_singleton] at hp2
        subst hp2
        exact ⟨encodePart_ne_nil n2 f2 ct2 B2, hNE2⟩)
  have hff := findFilePart_encode bd n1 f1 ct1 B1 [encodePart n2 f2 ct2 B2]
    hn1 hn2 hn3 hn4 hn5 hn6 hf11 hf12 hf13 hf14 hct11 hct12 hct13 hct14
    hname1 hno htl1
  unfold parseMultipartFormData mkRequest
  simp only [if_neg hne, hgb, hsb, hff]

/-- Witness for C8 at a concrete input: two file-bearing parts; the
first (`image`, `a.jpg`, `image/jpeg`, `ab`) is returned, the second
(`file`, `b.png`, `image/png`, `cd`) is ignored. -/
theorem claim_C8_witness :
    parseMultipartFormData (mkRequest "XYZ".data
        [encodePart "image".data "a.jpg".data "image/jpeg".data "ab".data,
         encodePart "file".data "b.png".data "image/png".data "cd".data]) =
      some ⟨"a.jpg".data, "image/jpeg".data, "ab".data⟩ :=
  claim_C8 "XYZ".data "image".data "a.jpg".data "image/jpeg".data "ab".data
    "file".data "b.png".data "image/png".data "cd".data
    (by decide) (by decide) (by decide) (Or.inl rfl)
    (by decide) (by decide) (by decide) (by decide)
    (by decide) (by decide) (by decide) (by decide)
    (by unfold noEarlyOcc; decide)
    (by
      intro C h
      have hlen := congrArg List.length h
      have h2 : ("ab".data).length = 2 := by decide
      rw [h2, List.length_append, List.length_cons, List.length_cons,
        List.length_nil] at hlen
      have hC : C = [] := List.eq_nil_of_length_eq_zero (by omega)
      rw [hC, List.nil_append] at h
      exact absurd h (by decide))
    (Or.inr rfl) (by decide)
    (by unfold noEarlyOcc; decide)

end AWSImageService
